import Mathlib

set_option maxRecDepth 8000

/-!
Verification of the rectangle-layout engine of the plato repository.

The layout core is PackedView::compute_sizes in
src/crates/core/src/view/packed_view/mod.rs, with the directive types
(Pack, VAlign, Position) from src/crates/core/src/view/packed_view/pack.rs.
The geometry primitives (Rectangle, Point, Vec2, the rect!/pt! macros and
the arithmetic on them) live in the repository's geom module, which is not
part of the provided sources; following the specification those primitives
are modelled here explicitly, each such definition carrying a doc comment
starting with its provenance.  Everything else is a direct translation of
the Rust source: machine integers become Int (no overflow is exercised by
the properties below), vectors become List, and the iteration of
compute_sizes becomes structural recursion over the directive list.
-/

namespace Plato

/-- Modelled from the spec: the geometry module (geom.rs, absent from the
provided sources) defines an integer point with x and y coordinates. -/
structure Point where
  x : Int
  y : Int
deriving DecidableEq

/-- Modelled from the spec: an axis-aligned rectangle given by integer min
and max corner points (geom.rs, absent from the provided sources). -/
structure Rectangle where
  min : Point
  max : Point
deriving DecidableEq

/-- Modelled from the spec: width is derived from the corners. -/
def Rectangle.width (r : Rectangle) : Int := r.max.x - r.min.x

/-- Modelled from the spec: height is derived from the corners. -/
def Rectangle.height (r : Rectangle) : Int := r.max.y - r.min.y

/-- Modelled from the spec: pointwise addition of points. -/
instance : Add Point := ⟨fun a b => ⟨a.x + b.x, a.y + b.y⟩⟩

/-- Modelled from the spec: rectangle plus rectangle acts as a margin
offset, shrinking or growing each edge independently (min corners add,
max corners add). -/
instance : Add Rectangle := ⟨fun a b => ⟨a.min + b.min, a.max + b.max⟩⟩

/-- Modelled from the spec: pointwise subtraction of points. -/
instance : Sub Point := ⟨fun a b => ⟨a.x - b.x, a.y - b.y⟩⟩

/-- Modelled from the spec: rectangle minus rectangle subtracts the margin
offset from each corner, the inverse of the additive margin offset. -/
instance : Sub Rectangle := ⟨fun a b => ⟨a.min - b.min, a.max - b.max⟩⟩

/-- Modelled from the spec: componentwise comparison; a size fits within a
region extent exactly when both components are less than or equal. -/
def Point.le (a b : Point) : Bool := a.x ≤ b.x && a.y ≤ b.y

/-- Modelled from the spec: Point::lt as used by the Fixed fallback in
compute_sizes.  The spec states the fallback fires exactly when the chosen
candidate region is smaller than the requested size on at least one axis,
so size.lt(region_extent) holds when the region extent is strictly below
the requested size on the x axis or on the y axis. -/
def Point.lt (a b : Point) : Bool := b.x < a.x || b.y < a.y

/-- Modelled from the spec: componentwise minimum, used to clamp a Fixed
request component-wise to the available extent. -/
def Point.min (a b : Point) : Point := ⟨Min.min a.x b.x, Min.min a.y b.y⟩

/-- Modelled from the spec: the fraction type Vec2 of the geometry module
(a pair of fractional scale factors, one per axis).  The floating-point
pair of the source is modelled exactly as a pair of integer fractions;
applying a fraction multiplies and then truncates toward zero, the
rounding of the float-to-integer cast in Point::from. -/
structure Frac where
  num : Int
  den : Int
deriving DecidableEq

/-- Modelled from the spec: scaling an integer by a fraction, truncated
toward zero. -/
def Frac.apply (f : Frac) (n : Int) : Int := Int.tdiv (n * f.num) f.den

/-- Modelled from the spec: a Vec2 scale factor per axis. -/
structure Vec2 where
  x : Frac
  y : Frac
deriving DecidableEq

/-- Modelled from the spec: Point::from(full_size * pc), the componentwise
application of the percentage vector to the full parent size. -/
def pointMulVec (p : Point) (v : Vec2) : Point := ⟨v.x.apply p.x, v.y.apply p.y⟩

/-- Horizontal alignment, from crate::view (declaration outside the
provided sources; variants are fixed by their uses in compute_sizes and by
the spec: Left and Right carry an outer margin, Center carries none). -/
inductive Align where
  | Left : Int → Align
  | Right : Int → Align
  | Center : Align
deriving DecidableEq

/-- Vertical alignment, from pack.rs. -/
inductive VAlign where
  | Top : Int → VAlign
  | Bottom : Int → VAlign
  | Center : VAlign
deriving DecidableEq

/-- Sizing policy, from pack.rs. -/
inductive Pack where
  | Fixed : Point → Pack
  | Percent : Vec2 → Pack
  | Fill : Pack
deriving DecidableEq

/-- Placement directive, from pack.rs. -/
structure Position where
  pack : Pack
  margin : Rectangle
  align : Align
  valign : VAlign
deriving DecidableEq

/-- The zero rectangle NULL_RECT of pack.rs. -/
def NULL_RECT : Rectangle := ⟨⟨0, 0⟩, ⟨0, 0⟩⟩

/-- The outer horizontal margin extracted from the alignment
(compute_sizes, lines 54 to 57). -/
def outerH : Align → Int
  | Align.Left h => h
  | Align.Right h => h
  | Align.Center => 0

/-- The outer vertical margin extracted from the vertical alignment
(compute_sizes, lines 58 to 61). -/
def outerV : VAlign → Int
  | VAlign.Top v => v
  | VAlign.Bottom v => v
  | VAlign.Center => 0

/-- The conversion outer_margin.try_into().unwrap_or(0) of compute_sizes
(signed to unsigned, negative margins becoming zero). -/
def tryNat (m : Int) : Int := if m < 0 then 0 else m

/-- The six scored candidates of the selection scan, each paired with the
index of the availability it came from (compute_sizes, lines 64 to 69). -/
structure Sel where
  largest : Nat × Rectangle
  highest : Nat × Rectangle
  leftmost : Nat × Rectangle
  rightmost : Nat × Rectangle
  topmost : Nat × Rectangle
  bottommost : Nat × Rectangle
deriving DecidableEq

/-- The initial candidate state: every candidate starts as index zero with
the first availability, unexpanded (compute_sizes, lines 63 to 69). -/
def initSel (first : Rectangle) : Sel :=
  ⟨(0, first), (0, first), (0, first), (0, first), (0, first), (0, first)⟩

/-- The largest-candidate update of the scan (compute_sizes, lines 71
to 74): replace when the stored width, with the outer margins added back,
is below the new availability's width. -/
def updLargest (hm : Int) (om : Rectangle) (i : Nat) (r : Rectangle) (s : Sel) : Sel :=
  if s.largest.2.width + 2 * tryNat hm < r.width then { s with largest := (i, r + om) } else s

/-- The highest-candidate update of the scan (compute_sizes, lines 75
to 78). -/
def updHighest (vm : Int) (om : Rectangle) (i : Nat) (r : Rectangle) (s : Sel) : Sel :=
  if s.highest.2.height + 2 * tryNat vm < r.height then { s with highest := (i, r + om) } else s

/-- The leftmost-candidate update of the scan (compute_sizes, lines 79
to 82), written exactly as in the source: the stored candidate on the
left of the strict comparison. -/
def updLeftmost (hm : Int) (om : Rectangle) (i : Nat) (r : Rectangle) (s : Sel) : Sel :=
  if s.leftmost.2.min.x < r.min.x + hm then { s with leftmost := (i, r + om) } else s

/-- The rightmost-candidate update of the scan (compute_sizes, lines 83
to 86). -/
def updRightmost (hm : Int) (om : Rectangle) (i : Nat) (r : Rectangle) (s : Sel) : Sel :=
  if s.rightmost.2.max.x < r.max.x - hm then { s with rightmost := (i, r + om) } else s

/-- The topmost-candidate update of the scan (compute_sizes, lines 87
to 90), with the stored candidate on the left of the strict comparison as
in the source. -/
def updTopmost (vm : Int) (om : Rectangle) (i : Nat) (r : Rectangle) (s : Sel) : Sel :=
  if s.topmost.2.min.y < r.min.y + vm then { s with topmost := (i, r + om) } else s

/-- The bottommost-candidate update of the scan (compute_sizes, lines 91
to 94). -/
def updBottommost (vm : Int) (om : Rectangle) (i : Nat) (r : Rectangle) (s : Sel) : Sel :=
  if s.bottommost.2.max.y < r.max.y - vm then { s with bottommost := (i, r + om) } else s

/-- One iteration of the candidate scan over availability r at index i
(compute_sizes, lines 70 to 95): the six conditional updates applied in
source order. -/
def scanStep (hm vm : Int) (om : Rectangle) (s : Sel) (i : Nat) (r : Rectangle) : Sel :=
  updBottommost vm om i r (updTopmost vm om i r (updRightmost hm om i r
    (updLeftmost hm om i r (updHighest vm om i r (updLargest hm om i r s)))))

/-- The candidate scan folded over the availability list with its indices. -/
def scanGo (hm vm : Int) (om : Rectangle) : Sel → Nat → List Rectangle → Sel
  | s, _, [] => s
  | s, i, r :: rs => scanGo hm vm om (scanStep hm vm om s i r) (i + 1) rs

/-- The full candidate selection pass over the availabilities
(compute_sizes, lines 63 to 95). -/
def selectCandidates (hm vm : Int) (om : Rectangle) (avails : List Rectangle) : Sel :=
  scanGo hm vm om (initSel (avails.headD NULL_RECT)) 0 avails

/-- The alignment policy choosing the base candidate (compute_sizes,
lines 97 to 101). -/
def alignChoice (a : Align) (s : Sel) : Nat × Rectangle :=
  match a with
  | Align.Left _ => s.leftmost
  | Align.Right _ => s.rightmost
  | Align.Center => s.largest

/-- The extent of a region as a point (the pt!(width, height) pattern of
compute_sizes). -/
def regionDims (r : Rectangle) : Point := ⟨r.width, r.height⟩

/-- The Fixed fallback: a Fixed directive whose chosen candidate is judged
too small by Point::lt switches to the largest candidate (compute_sizes,
lines 102 to 106). -/
def fixedFallback (pk : Pack) (lg chosen : Nat × Rectangle) : Nat × Rectangle :=
  match pk with
  | Pack.Fixed s => if Point.lt s (regionDims chosen.2) then lg else chosen
  | _ => chosen

/-- The resolved size of the directive in the chosen region
(compute_sizes, lines 108 to 120). -/
def resolveSize (fullSize : Point) (pk : Pack) (into : Rectangle) : Point :=
  match pk with
  | Pack.Fixed s => if Point.le s (regionDims into) then s else Point.min s (regionDims into)
  | Pack.Percent pc => pointMulVec fullSize pc
  | Pack.Fill => regionDims into

/-- One loop iteration of compute_sizes: select a region, resolve the
size, position the child rectangle, subtract the inner margin, and cut the
consumed availability into residual fragments (compute_sizes, lines 54 to
161).  Returns the emitted rectangle and the updated availability list. -/
def packStep (fullSize : Point) (avails : List Rectangle) (p : Position) : Rectangle × List Rectangle :=
  let hm := outerH p.align
  let vm := outerV p.valign
  let om : Rectangle := ⟨⟨hm, vm⟩, ⟨-hm, -vm⟩⟩
  let sel := selectCandidates hm vm om avails
  let rect_into := fixedFallback p.pack sel.largest (alignChoice p.align sel)
  let size := resolveSize fullSize p.pack rect_into.2
  let min_x :=
    match p.align with
    | Align.Left _ => rect_into.2.min.x
    | Align.Right _ => rect_into.2.max.x - size.x
    | Align.Center => rect_into.2.min.x + Int.tdiv rect_into.2.width 2 - Int.tdiv size.x 2
  let min_y :=
    match p.valign with
    | VAlign.Top _ => rect_into.2.min.y
    | VAlign.Bottom _ => rect_into.2.max.y - size.y
    | VAlign.Center => rect_into.2.min.y + Int.tdiv rect_into.2.height 2 - Int.tdiv size.y 2
  let rect : Rectangle := (⟨⟨min_x, min_y⟩, Point.mk min_x min_y + size⟩ : Rectangle) - p.margin
  let orig := avails.getD rect_into.1 NULL_RECT
  let cutH : List Rectangle :=
    match p.align with
    | Align.Left _ => [orig + ⟨⟨size.x + 2 * hm, 0⟩, ⟨0, 0⟩⟩]
    | Align.Right _ => [orig + ⟨⟨0, 0⟩, ⟨-(size.x + 2 * hm), 0⟩⟩]
    | Align.Center => [⟨orig.min, ⟨rect.min.x, orig.max.y⟩⟩, ⟨⟨rect.max.x, orig.min.y⟩, orig.max⟩]
  let cutV : List Rectangle :=
    match p.valign with
    | VAlign.Top _ => [orig + ⟨⟨0, size.y + 2 * vm⟩, ⟨0, 0⟩⟩]
    | VAlign.Bottom _ => [orig + ⟨⟨0, 0⟩, ⟨0, -(size.y + 2 * vm)⟩⟩]
    | VAlign.Center => [⟨⟨rect.min.x, orig.min.y⟩, ⟨rect.max.x, rect.min.y⟩⟩, ⟨⟨rect.min.x, rect.max.y⟩, ⟨rect.max.x, orig.max.y⟩⟩]
  let newAvails := avails.eraseIdx rect_into.1 ++ (cutH ++ cutV).filter (fun q => 0 < q.width && 0 < q.height)
  (rect, newAvails)

/-- The loop of compute_sizes (lines 46 to 167): one iteration per
directive, stopping outright when the availability list is empty. -/
def computeSizes (fullSize : Point) : List Position → List Rectangle → List Rectangle
  | [], _ => []
  | _ :: _, [] => []
  | p :: ps, a :: rest =>
    let pr := packStep fullSize (a :: rest) p
    pr.1 :: computeSizes fullSize ps pr.2

/-- PackedView::compute_sizes (lines 39 to 170): the full size is taken
from the parent rectangle, the availability list starts as the parent
rectangle alone. -/
def compute_sizes (rect : Rectangle) (positions : List Position) : List Rectangle :=
  computeSizes ⟨rect.width, rect.height⟩ positions [rect]

/-- A directive with zero inner margin, built like the helpers of pack.rs. -/
def mkPos (pk : Pack) (a : Align) (v : VAlign) : Position :=
  ⟨pk, NULL_RECT, a, v⟩

/-- Two rectangles are disjoint when they are separated along one of the
axes; two rectangles of positive extent overlap exactly when this fails. -/
def RectDisjoint (a b : Rectangle) : Prop :=
  a.max.x ≤ b.min.x ∨ b.max.x ≤ a.min.x ∨ a.max.y ≤ b.min.y ∨ b.max.y ≤ a.min.y

instance (a b : Rectangle) : Decidable (RectDisjoint a b) := by
  unfold RectDisjoint
  infer_instance

/-- Containment of a rectangle in an outer rectangle. -/
def Inside (outer r : Rectangle) : Prop :=
  outer.min.x ≤ r.min.x ∧ outer.min.y ≤ r.min.y ∧ r.max.x ≤ outer.max.x ∧ r.max.y ≤ outer.max.y

instance (o r : Rectangle) : Decidable (Inside o r) := by
  unfold Inside
  infer_instance

/-- A rectangle whose corners are in the right order. -/
def ProperRect (r : Rectangle) : Prop := r.min.x ≤ r.max.x ∧ r.min.y ≤ r.max.y

instance (r : Rectangle) : Decidable (ProperRect r) := by
  unfold ProperRect
  infer_instance

/-- The loop of compute_sizes emits at most one rectangle per directive:
every iteration consumes exactly one directive and pushes exactly one
rectangle, and the loop can stop early. -/
theorem computeSizes_length_le (fs : Point) :
    ∀ (ps : List Position) (avails : List Rectangle),
      (computeSizes fs ps avails).length ≤ ps.length := by
  intro ps
  induction ps with
  | nil => intro avails; simp [computeSizes]
  | cons p ps ih =>
    intro avails
    cases avails with
    | nil => simp [computeSizes]
    | cons a rest =>
      simpa [computeSizes] using ih (packStep fs (a :: rest) p).2

/-- C1 counterexample: two Fill directives in a 10 by 10 parent.  The
first consumes everything, the availability set becomes empty, and the
pass stops with the break of compute_sizes line 47 to 50: only one
rectangle comes back for two directives, so the output is not one entry
per directive and the starved directive receives no degenerate rectangle. -/
theorem c1_counterexample :
    (compute_sizes ⟨⟨0, 0⟩, ⟨10, 10⟩⟩
        [mkPos Pack.Fill (Align.Left 0) (VAlign.Top 0),
         mkPos Pack.Fill (Align.Left 0) (VAlign.Top 0)]).length ≠
      ([mkPos Pack.Fill (Align.Left 0) (VAlign.Top 0),
        mkPos Pack.Fill (Align.Left 0) (VAlign.Top 0)] : List Position).length := by
  decide

/-- C1 (amended): the layout pass returns at most one rectangle per
directive, in directive order; when the availability set becomes empty the
pass stops outright, so directives after the exhaustion point receive no
rectangle at all and the output list may be shorter than the directive
list. -/
theorem c1_amended (rect : Rectangle) (positions : List Position) :
    (compute_sizes rect positions).length ≤ positions.length :=
  computeSizes_length_le ⟨rect.width, rect.height⟩ positions [rect]

/-- C2: for a Left-aligned directive the scan is supposed to select the
availability minimizing min.x, but the running comparison is written with
the stored candidate on the small side, so the scan replaces the candidate
whenever the new availability has a larger min.x and ends on the
availability maximizing min.x.  With availabilities (20,0)-(100,100) and
(0,20)-(100,100) and zero margins, the second one has the strictly
smaller min.x, yet the leftmost candidate ends as the first one; an
end-to-end run after Fixed(20,20) Left/Top shows a Left-aligned Fill
placed into the right-hand strip instead of the left column. -/
theorem c2_selection_reversed :
    (selectCandidates 0 0 NULL_RECT
        [⟨⟨20, 0⟩, ⟨100, 100⟩⟩, ⟨⟨0, 20⟩, ⟨100, 100⟩⟩]).leftmost.2 = ⟨⟨20, 0⟩, ⟨100, 100⟩⟩ ∧
      (⟨⟨0, 20⟩, ⟨100, 100⟩⟩ : Rectangle).min.x < (⟨⟨20, 0⟩, ⟨100, 100⟩⟩ : Rectangle).min.x ∧
      compute_sizes ⟨⟨0, 0⟩, ⟨100, 100⟩⟩
          [mkPos (Pack.Fixed ⟨20, 20⟩) (Align.Left 0) (VAlign.Top 0),
           mkPos Pack.Fill (Align.Left 0) (VAlign.Top 0)] =
        [⟨⟨0, 0⟩, ⟨20, 20⟩⟩, ⟨⟨20, 0⟩, ⟨100, 100⟩⟩] := by
  decide

/-- C6: the example scenario of the spec, evaluated on the translated
compute_sizes.  Parent (0,0)-(100,20); Fixed(20,20) Left/Top lands at
(0,0)-(20,20), Fixed(20,20) Right/Top lands at (80,0)-(100,20), and the
final Fill Left/Top takes the residual middle strip (20,0)-(80,20). -/
theorem c6_example_scenario :
    compute_sizes ⟨⟨0, 0⟩, ⟨100, 20⟩⟩
        [mkPos (Pack.Fixed ⟨20, 20⟩) (Align.Left 0) (VAlign.Top 0),
         mkPos (Pack.Fixed ⟨20, 20⟩) (Align.Right 0) (VAlign.Top 0),
         mkPos Pack.Fill (Align.Left 0) (VAlign.Top 0)] =
      [⟨⟨0, 0⟩, ⟨20, 20⟩⟩, ⟨⟨80, 0⟩, ⟨100, 20⟩⟩, ⟨⟨20, 0⟩, ⟨80, 20⟩⟩] := by
  decide

/-- C4 counterexample: in a 100 by 100 parent the Left/Top fixed-size,
zero-margin sequence Fixed(20,20), Fixed(80,100), Fixed(80,80) produces
outputs two and three overlapping each other (both have positive extent
and are separated on no axis), even though the cumulative consumed width
of the first two is already the full parent width, so the third directive
ought to be degenerate under the claim; and already after the first
directive the two stored availabilities overlap each other, so the
availability set is not pairwise disjoint. -/
theorem c4_counterexample :
    compute_sizes ⟨⟨0, 0⟩, ⟨100, 100⟩⟩
        [mkPos (Pack.Fixed ⟨20, 20⟩) (Align.Left 0) (VAlign.Top 0),
         mkPos (Pack.Fixed ⟨80, 100⟩) (Align.Left 0) (VAlign.Top 0),
         mkPos (Pack.Fixed ⟨80, 80⟩) (Align.Left 0) (VAlign.Top 0)] =
        [⟨⟨0, 0⟩, ⟨20, 20⟩⟩, ⟨⟨20, 0⟩, ⟨100, 100⟩⟩, ⟨⟨0, 20⟩, ⟨80, 100⟩⟩] ∧
      ¬ RectDisjoint ⟨⟨20, 0⟩, ⟨100, 100⟩⟩ ⟨⟨0, 20⟩, ⟨80, 100⟩⟩ ∧
      (⟨⟨0, 20⟩, ⟨80, 100⟩⟩ : Rectangle).width ≠ 0 ∧
      (packStep ⟨100, 100⟩ [⟨⟨0, 0⟩, ⟨100, 100⟩⟩]
          (mkPos (Pack.Fixed ⟨20, 20⟩) (Align.Left 0) (VAlign.Top 0))).2 =
        [⟨⟨20, 0⟩, ⟨100, 100⟩⟩, ⟨⟨0, 20⟩, ⟨100, 100⟩⟩] ∧
      ¬ RectDisjoint ⟨⟨20, 0⟩, ⟨100, 100⟩⟩ ⟨⟨0, 20⟩, ⟨100, 100⟩⟩ := by
  decide

/-- C8 counterexample: two directive lists over a 100 by 100 parent that
differ only in the inner margin of their first directive, a Fixed(20,20)
Center/Center entry, followed by the same Fill Center/Top directive.  The
Center cuts are computed from the inner-margin-adjusted rectangle, so the
availability fragments differ, the second directive selects a different
largest region, and the second output rectangle differs between the two
runs: the inner margin is not cosmetic for Center placements. -/
theorem c8_counterexample :
    (compute_sizes ⟨⟨0, 0⟩, ⟨100, 100⟩⟩
          [⟨Pack.Fixed ⟨20, 20⟩, ⟨⟨5, 0⟩, ⟨0, 0⟩⟩, Align.Center, VAlign.Center⟩,
           mkPos Pack.Fill Align.Center (VAlign.Top 0)])[1]? =
        some ⟨⟨60, 0⟩, ⟨100, 100⟩⟩ ∧
      (compute_sizes ⟨⟨0, 0⟩, ⟨100, 100⟩⟩
          [⟨Pack.Fixed ⟨20, 20⟩, NULL_RECT, Align.Center, VAlign.Center⟩,
           mkPos Pack.Fill Align.Center (VAlign.Top 0)])[1]? =
        some ⟨⟨0, 0⟩, ⟨40, 100⟩⟩ ∧
      (some ⟨⟨60, 0⟩, ⟨100, 100⟩⟩ : Option Rectangle) ≠ some ⟨⟨0, 0⟩, ⟨40, 100⟩⟩ := by
  decide

/-- C9 counterexample: a Fixed(10,10) Left/Top directive whose inner
margin subtracts twenty pixels from the right edge emits the rectangle
(0,0)-(-10,10) with inverted corners and negative width; the emitted list
is not clamped, only availability fragments are filtered. -/
theorem c9_counterexample :
    compute_sizes ⟨⟨0, 0⟩, ⟨100, 100⟩⟩
        [⟨Pack.Fixed ⟨10, 10⟩, ⟨⟨0, 0⟩, ⟨20, 0⟩⟩, Align.Left 0, VAlign.Top 0⟩] =
        [⟨⟨0, 0⟩, ⟨-10, 10⟩⟩] ∧
      (⟨⟨0, 0⟩, ⟨-10, 10⟩⟩ : Rectangle).width < 0 := by
  decide

@[simp] theorem point_add_def (a b : Point) : a + b = ⟨a.x + b.x, a.y + b.y⟩ := rfl

@[simp] theorem point_sub_def (a b : Point) : a - b = ⟨a.x - b.x, a.y - b.y⟩ := rfl

@[simp] theorem rect_add_def (a b : Rectangle) : a + b = ⟨a.min + b.min, a.max + b.max⟩ := rfl

@[simp] theorem rect_sub_def (a b : Rectangle) : a - b = ⟨a.min - b.min, a.max - b.max⟩ := rfl

/-- C3: the Fixed fallback replaces the alignment-chosen candidate by the
largest candidate exactly when the candidate region is smaller than the
requested size on at least one axis, and keeps the candidate when the
request fits on both axes (compute_sizes lines 102 to 106, with Point::lt
modelled from the spec). -/
theorem c3_fixed_fallback (s : Point) (lg chosen : Nat × Rectangle) :
    (chosen.2.width < s.x ∨ chosen.2.height < s.y →
      fixedFallback (Pack.Fixed s) lg chosen = lg) ∧
    (s.x ≤ chosen.2.width ∧ s.y ≤ chosen.2.height →
      fixedFallback (Pack.Fixed s) lg chosen = chosen) := by
  constructor
  · intro h
    have hb : Point.lt s (regionDims chosen.2) = true := by
      simp only [Point.lt, regionDims, Bool.or_eq_true, decide_eq_true_eq]
      omega
    simp [fixedFallback, hb]
  · intro h
    have hb : Point.lt s (regionDims chosen.2) = false := by
      simp only [Point.lt, regionDims, Bool.or_eq_false_iff, decide_eq_false_iff_not]
      omega
    simp [fixedFallback, hb]

/-- C3 witness: with request (5,5), a 3 by 10 candidate is replaced by the
largest region, while a 10 by 10 candidate is kept. -/
theorem c3_witness :
    fixedFallback (Pack.Fixed ⟨5, 5⟩) (0, ⟨⟨0, 0⟩, ⟨50, 50⟩⟩) (1, ⟨⟨0, 0⟩, ⟨3, 10⟩⟩) =
        (0, ⟨⟨0, 0⟩, ⟨50, 50⟩⟩) ∧
      fixedFallback (Pack.Fixed ⟨5, 5⟩) (0, ⟨⟨0, 0⟩, ⟨50, 50⟩⟩) (1, ⟨⟨0, 0⟩, ⟨10, 10⟩⟩) =
        (1, ⟨⟨0, 0⟩, ⟨10, 10⟩⟩) :=
  ⟨(c3_fixed_fallback ⟨5, 5⟩ (0, ⟨⟨0, 0⟩, ⟨50, 50⟩⟩) (1, ⟨⟨0, 0⟩, ⟨3, 10⟩⟩)).1 (by decide),
   (c3_fixed_fallback ⟨5, 5⟩ (0, ⟨⟨0, 0⟩, ⟨50, 50⟩⟩) (1, ⟨⟨0, 0⟩, ⟨10, 10⟩⟩)).2 (by decide)⟩

/-- C9 (amended): the positivity filter applies to the availability set,
not the emitted rectangles: every iteration of the loop keeps the stored
availabilities of strictly positive width and height, discarding every
degenerate or inverted fragment, while the emitted rectangle itself is
pushed without any clamp and can carry negative extents. -/
theorem c9_amended (fs : Point) (av : List Rectangle) (p : Position)
    (h : ∀ a ∈ av, 0 < a.width ∧ 0 < a.height) :
    ∀ q ∈ (packStep fs av p).2, 0 < q.width ∧ 0 < q.height := by
  intro q hq
  simp only [packStep] at hq
  rcases List.mem_append.1 hq with hql | hqr
  · exact h q (List.eraseIdx_subset _ _ hql)
  · rcases List.mem_filter.1 hqr with ⟨-, hcond⟩
    simp only [Bool.and_eq_true, decide_eq_true_eq] at hcond
    exact hcond

/-- C9 witness: one Fixed(3,3) Left/Top step in a 10 by 10 parent leaves
the availability fragment (3,0)-(10,10) first in the updated set, and it
has positive extent. -/
theorem c9_witness :
    0 < ((packStep ⟨10, 10⟩ [⟨⟨0, 0⟩, ⟨10, 10⟩⟩]
          (mkPos (Pack.Fixed ⟨3, 3⟩) (Align.Left 0) (VAlign.Top 0))).2.getD 0 NULL_RECT).width ∧
      0 < ((packStep ⟨10, 10⟩ [⟨⟨0, 0⟩, ⟨10, 10⟩⟩]
          (mkPos (Pack.Fixed ⟨3, 3⟩) (Align.Left 0) (VAlign.Top 0))).2.getD 0 NULL_RECT).height :=
  c9_amended ⟨10, 10⟩ [⟨⟨0, 0⟩, ⟨10, 10⟩⟩]
    (mkPos (Pack.Fixed ⟨3, 3⟩) (Align.Left 0) (VAlign.Top 0))
    (by decide) _ (by decide)

/-- The width and height of an emitted rectangle for a zero-inner-margin
Percent directive equal the fraction of the full size, whatever the
availability list at that iteration looks like. -/
theorem computeSizes_percent (fs : Point) :
    ∀ (ps : List Position) (avails : List Rectangle) (i : Nat) (p : Position) (v : Vec2)
      (r : Rectangle),
      ps[i]? = some p → p.pack = Pack.Percent v → p.margin = NULL_RECT →
      (computeSizes fs ps avails)[i]? = some r →
      r.width = v.x.apply fs.x ∧ r.height = v.y.apply fs.y := by
  intro ps
  induction ps with
  | nil => intro avails i p v r hp; simp at hp
  | cons q ps ih =>
    intro avails i p v r hp hpk hm hr
    cases avails with
    | nil => simp [computeSizes] at hr
    | cons a rest =>
      cases i with
      | zero =>
        simp only [List.getElem?_cons_zero, Option.some.injEq] at hp
        subst hp
        simp only [computeSizes, List.getElem?_cons_zero, Option.some.injEq] at hr
        subst hr
        simp only [packStep, hpk, hm, resolveSize, pointMulVec]
        simp [Rectangle.width, Rectangle.height, NULL_RECT]
      | succ n =>
        simp only [List.getElem?_cons_succ] at hp
        simp only [computeSizes, List.getElem?_cons_succ] at hr
        exact ih _ n p v r hp hpk hm hr

/-- C7: for every directive with size policy Percent(fx, fy) and zero
inner margin, the emitted rectangle's width and height are the truncated
products of the original parent rectangle's width and height with the
respective fractions, independent of how much space earlier directives
consumed. -/
theorem c7_percent_of_parent (parent : Rectangle) (ps : List Position) (i : Nat)
    (p : Position) (v : Vec2) (r : Rectangle)
    (hp : ps[i]? = some p) (hpk : p.pack = Pack.Percent v) (hm : p.margin = NULL_RECT)
    (hr : (compute_sizes parent ps)[i]? = some r) :
    r.width = Int.tdiv (parent.width * v.x.num) v.x.den ∧
      r.height = Int.tdiv (parent.height * v.y.num) v.y.den :=
  computeSizes_percent ⟨parent.width, parent.height⟩ ps [parent] i p v r hp hpk hm hr

/-- C7 witness: two Percent(1/2, 1) directives, Left then Right, in a
parent of width 100 both come back with width 50; the second directive's
width is unaffected by the half of the parent already consumed. -/
theorem c7_witness :
    (⟨⟨0, 0⟩, ⟨50, 40⟩⟩ : Rectangle).width = Int.tdiv ((100 : Int) * 1) 2 ∧
      (⟨⟨50, 0⟩, ⟨100, 40⟩⟩ : Rectangle).width = Int.tdiv ((100 : Int) * 1) 2 :=
  ⟨(c7_percent_of_parent ⟨⟨0, 0⟩, ⟨100, 40⟩⟩
      [mkPos (Pack.Percent ⟨⟨1, 2⟩, ⟨1, 1⟩⟩) (Align.Left 0) (VAlign.Top 0),
       mkPos (Pack.Percent ⟨⟨1, 2⟩, ⟨1, 1⟩⟩) (Align.Right 0) (VAlign.Top 0)]
      0 (mkPos (Pack.Percent ⟨⟨1, 2⟩, ⟨1, 1⟩⟩) (Align.Left 0) (VAlign.Top 0))
      ⟨⟨1, 2⟩, ⟨1, 1⟩⟩ ⟨⟨0, 0⟩, ⟨50, 40⟩⟩ (by decide) (by decide) (by decide) (by decide)).1,
   (c7_percent_of_parent ⟨⟨0, 0⟩, ⟨100, 40⟩⟩
      [mkPos (Pack.Percent ⟨⟨1, 2⟩, ⟨1, 1⟩⟩) (Align.Left 0) (VAlign.Top 0),
       mkPos (Pack.Percent ⟨⟨1, 2⟩, ⟨1, 1⟩⟩) (Align.Right 0) (VAlign.Top 0)]
      1 (mkPos (Pack.Percent ⟨⟨1, 2⟩, ⟨1, 1⟩⟩) (Align.Right 0) (VAlign.Top 0))
      ⟨⟨1, 2⟩, ⟨1, 1⟩⟩ ⟨⟨50, 0⟩, ⟨100, 40⟩⟩ (by decide) (by decide) (by decide) (by decide)).1⟩

/-- The availability update of one loop iteration ignores the directive's
inner margin whenever neither alignment is Center: the non-Center cuts are
built from the original availability, the resolved size and the outer
margins only, while the Center cuts read the inner-margin-adjusted
rectangle. -/
theorem packStep_snd_congr (fs : Point) (av : List Rectangle) (p q : Position)
    (hpk : p.pack = q.pack) (ha : p.align = q.align) (hv : p.valign = q.valign)
    (hA : p.align ≠ Align.Center) (hV : p.valign ≠ VAlign.Center) :
    (packStep fs av p).2 = (packStep fs av q).2 := by
  obtain ⟨pk, m1, al, vl⟩ := p
  obtain ⟨pk2, m2, al2, vl2⟩ := q
  have h1 : pk = pk2 := hpk
  have h2 : al = al2 := ha
  have h3 : vl = vl2 := hv
  subst h1
  subst h2
  subst h3
  have hA2 : al ≠ Align.Center := hA
  have hV2 : vl ≠ VAlign.Center := hV
  cases al with
  | Center => exact absurd rfl hA2
  | Left h =>
    cases vl with
    | Center => exact absurd rfl hV2
    | Top v => rfl
    | Bottom v => rfl
  | Right h =>
    cases vl with
    | Center => exact absurd rfl hV2
    | Top v => rfl
    | Bottom v => rfl

/-- The loop of compute_sizes run on two directive lists that differ only
in the inner margin of the directive at one index, with that directive not
Center-aligned on either axis, produces outputs of the same length that
agree everywhere except possibly at that index. -/
theorem computeSizes_margin_free (fs : Point) :
    ∀ (i : Nat) (ps1 ps2 : List Position) (avails : List Rectangle),
      ps1.length = ps2.length →
      (∀ j, j ≠ i → ps1[j]? = ps2[j]?) →
      (∀ p1 p2, ps1[i]? = some p1 → ps2[i]? = some p2 →
        p1.pack = p2.pack ∧ p1.align = p2.align ∧ p1.valign = p2.valign ∧
          p1.align ≠ Align.Center ∧ p1.valign ≠ VAlign.Center) →
      (computeSizes fs ps1 avails).length = (computeSizes fs ps2 avails).length ∧
        ∀ j, j ≠ i → (computeSizes fs ps1 avails)[j]? = (computeSizes fs ps2 avails)[j]? := by
  intro i
  induction i with
  | zero =>
    intro ps1 ps2 avails hlen hother hsame
    cases ps1 with
    | nil =>
      cases ps2 with
      | nil => exact ⟨rfl, fun j _ => rfl⟩
      | cons q t => simp at hlen
    | cons p1 t1 =>
      cases ps2 with
      | nil => simp at hlen
      | cons p2 t2 =>
        have ht : t1 = t2 := by
          apply List.ext_getElem?
          intro k
          have := hother (k + 1) (Nat.succ_ne_zero k)
          simpa using this
        subst ht
        cases avails with
        | nil => exact ⟨rfl, fun j _ => rfl⟩
        | cons a rest =>
          obtain ⟨hpk, hal, hvl, hnA, hnV⟩ :=
            hsame p1 p2 (by simp) (by simp)
          have hstep := packStep_snd_congr fs (a :: rest) p1 p2 hpk hal hvl hnA hnV
          constructor
          · simp [computeSizes, hstep]
          · intro j hj
            cases j with
            | zero => exact absurd rfl hj
            | succ k =>
              simp [computeSizes, hstep]
  | succ i ih =>
    intro ps1 ps2 avails hlen hother hsame
    cases ps1 with
    | nil =>
      cases ps2 with
      | nil => exact ⟨rfl, fun j _ => rfl⟩
      | cons q t => simp at hlen
    | cons p1 t1 =>
      cases ps2 with
      | nil => simp at hlen
      | cons p2 t2 =>
        have hhead : p1 = p2 := by
          have := hother 0 (by omega)
          simpa using this
        subst hhead
        cases avails with
        | nil => exact ⟨rfl, fun j _ => rfl⟩
        | cons a rest =>
          have hlen2 : t1.length = t2.length := by simpa using hlen
          have hother2 : ∀ j, j ≠ i → t1[j]? = t2[j]? := by
            intro j hj
            have := hother (j + 1) (by omega)
            simpa using this
          have hsame2 : ∀ q1 q2, t1[i]? = some q1 → t2[i]? = some q2 →
              q1.pack = q2.pack ∧ q1.align = q2.align ∧ q1.valign = q2.valign ∧
                q1.align ≠ Align.Center ∧ q1.valign ≠ VAlign.Center := by
            intro q1 q2 h1 h2
            exact hsame q1 q2 (by simpa using h1) (by simpa using h2)
          obtain ⟨ihlen, ihget⟩ :=
            ih t1 t2 (packStep fs (a :: rest) p1).2 hlen2 hother2 hsame2
          constructor
          · simp [computeSizes, ihlen]
          · intro j hj
            cases j with
            | zero => simp [computeSizes]
            | succ k =>
              have hk : k ≠ i := by omega
              simp only [computeSizes, List.getElem?_cons_succ]
              exact ihget k hk

/-- C8 (amended): a directive's inner margin never affects space
accounting provided that directive is not Center-aligned on either axis:
for two directive lists that differ only in one such directive's inner
margin, the layout pass returns lists of the same length agreeing at every
other index.  For a Center-aligned directive the Center cuts are computed
from the inner-margin-adjusted rectangle, so its inner margin does leak
into the availability set and can change later siblings. -/
theorem c8_amended (parent : Rectangle) (i : Nat) (ps1 ps2 : List Position)
    (hlen : ps1.length = ps2.length)
    (hother : ∀ j, j ≠ i → ps1[j]? = ps2[j]?)
    (hsame : ∀ p1 p2, ps1[i]? = some p1 → ps2[i]? = some p2 →
      p1.pack = p2.pack ∧ p1.align = p2.align ∧ p1.valign = p2.valign ∧
        p1.align ≠ Align.Center ∧ p1.valign ≠ VAlign.Center) :
    (compute_sizes parent ps1).length = (compute_sizes parent ps2).length ∧
      ∀ j, j ≠ i → (compute_sizes parent ps1)[j]? = (compute_sizes parent ps2)[j]? :=
  computeSizes_margin_free ⟨parent.width, parent.height⟩ i ps1 ps2 [parent] hlen hother hsame

/-- C8 witness: two runs over a 100 by 100 parent whose first directive is
Fixed(10,10) Left/Top, once with inner margin and once without, followed
by the same Fill directive, agree on the second output rectangle. -/
theorem c8_witness :
    (compute_sizes ⟨⟨0, 0⟩, ⟨100, 100⟩⟩
        [⟨Pack.Fixed ⟨10, 10⟩, ⟨⟨2, 2⟩, ⟨0, 0⟩⟩, Align.Left 0, VAlign.Top 0⟩,
         mkPos Pack.Fill (Align.Left 0) (VAlign.Top 0)])[1]? =
      (compute_sizes ⟨⟨0, 0⟩, ⟨100, 100⟩⟩
        [⟨Pack.Fixed ⟨10, 10⟩, NULL_RECT, Align.Left 0, VAlign.Top 0⟩,
         mkPos Pack.Fill (Align.Left 0) (VAlign.Top 0)])[1]? :=
  (c8_amended ⟨⟨0, 0⟩, ⟨100, 100⟩⟩ 0
      [⟨Pack.Fixed ⟨10, 10⟩, ⟨⟨2, 2⟩, ⟨0, 0⟩⟩, Align.Left 0, VAlign.Top 0⟩,
       mkPos Pack.Fill (Align.Left 0) (VAlign.Top 0)]
      [⟨Pack.Fixed ⟨10, 10⟩, NULL_RECT, Align.Left 0, VAlign.Top 0⟩,
       mkPos Pack.Fill (Align.Left 0) (VAlign.Top 0)]
      rfl
      (by
        intro j hj
        rcases j with _ | _ | j
        · exact absurd rfl hj
        · rfl
        · rfl)
      (by
        intro p1 p2 h1 h2
        simp only [List.getElem?_cons_zero, Option.some.injEq] at h1 h2
        subst h1
        subst h2
        exact ⟨rfl, rfl, rfl, by decide, by decide⟩)).2
    1 one_ne_zero

/-- An alignment with zero outer margin and a fixed docking side. -/
def TameAlign : Align → Prop
  | Align.Left h => h = 0
  | Align.Right h => h = 0
  | Align.Center => False

instance (a : Align) : Decidable (TameAlign a) :=
  match a with
  | Align.Left h => inferInstanceAs (Decidable (h = 0))
  | Align.Right h => inferInstanceAs (Decidable (h = 0))
  | Align.Center => inferInstanceAs (Decidable False)

/-- A vertical alignment with zero outer margin and a fixed docking side. -/
def TameVAlign : VAlign → Prop
  | VAlign.Top v => v = 0
  | VAlign.Bottom v => v = 0
  | VAlign.Center => False

instance (a : VAlign) : Decidable (TameVAlign a) :=
  match a with
  | VAlign.Top v => inferInstanceAs (Decidable (v = 0))
  | VAlign.Bottom v => inferInstanceAs (Decidable (v = 0))
  | VAlign.Center => inferInstanceAs (Decidable False)

/-- A sizing policy with nonnegative requested size or factors. -/
def TamePack : Pack → Prop
  | Pack.Fixed s => 0 ≤ s.x ∧ 0 ≤ s.y
  | Pack.Percent v => 0 ≤ v.x.num ∧ 0 < v.x.den ∧ 0 ≤ v.y.num ∧ 0 < v.y.den
  | Pack.Fill => True

instance (pk : Pack) : Decidable (TamePack pk) :=
  match pk with
  | Pack.Fixed s => inferInstanceAs (Decidable (0 ≤ s.x ∧ 0 ≤ s.y))
  | Pack.Percent v =>
      inferInstanceAs (Decidable (0 ≤ v.x.num ∧ 0 < v.x.den ∧ 0 ≤ v.y.num ∧ 0 < v.y.den))
  | Pack.Fill => inferInstanceAs (Decidable True)

/-- A directive docked to a side on both axes with zero outer margins,
zero inner margin and nonnegative size request. -/
def Tame (p : Position) : Prop :=
  TamePack p.pack ∧ p.margin = NULL_RECT ∧ TameAlign p.align ∧ TameVAlign p.valign

instance (p : Position) : Decidable (Tame p) := by
  unfold Tame
  infer_instance

/-- Adding the zero outer-margin offset leaves a rectangle unchanged. -/
theorem add_om_zero (r : Rectangle) : r + (⟨⟨0, 0⟩, ⟨-0, -0⟩⟩ : Rectangle) = r := by
  rcases r with ⟨⟨x1, y1⟩, ⟨x2, y2⟩⟩
  simp

/-- All six scored candidates hold a rectangle of the set S. -/
def SelMem (S : List Rectangle) (s : Sel) : Prop :=
  s.largest.2 ∈ S ∧ s.highest.2 ∈ S ∧ s.leftmost.2 ∈ S ∧
    s.rightmost.2 ∈ S ∧ s.topmost.2 ∈ S ∧ s.bottommost.2 ∈ S

theorem updLargest_selMem (hm : Int) (om : Rectangle) (S : List Rectangle) (s : Sel)
    (i : Nat) (r : Rectangle) (hom : r + om = r) (hs : SelMem S s) (hr : r ∈ S) :
    SelMem S (updLargest hm om i r s) := by
  obtain ⟨h1, h2, h3, h4, h5, h6⟩ := hs
  unfold updLargest
  split
  · exact ⟨(by rw [hom]; exact hr : r + om ∈ S), h2, h3, h4, h5, h6⟩
  · exact ⟨h1, h2, h3, h4, h5, h6⟩

theorem updHighest_selMem (vm : Int) (om : Rectangle) (S : List Rectangle) (s : Sel)
    (i : Nat) (r : Rectangle) (hom : r + om = r) (hs : SelMem S s) (hr : r ∈ S) :
    SelMem S (updHighest vm om i r s) := by
  obtain ⟨h1, h2, h3, h4, h5, h6⟩ := hs
  unfold updHighest
  split
  · exact ⟨h1, (by rw [hom]; exact hr : r + om ∈ S), h3, h4, h5, h6⟩
  · exact ⟨h1, h2, h3, h4, h5, h6⟩

theorem updLeftmost_selMem (hm : Int) (om : Rectangle) (S : List Rectangle) (s : Sel)
    (i : Nat) (r : Rectangle) (hom : r + om = r) (hs : SelMem S s) (hr : r ∈ S) :
    SelMem S (updLeftmost hm om i r s) := by
  obtain ⟨h1, h2, h3, h4, h5, h6⟩ := hs
  unfold updLeftmost
  split
  · exact ⟨h1, h2, (by rw [hom]; exact hr : r + om ∈ S), h4, h5, h6⟩
  · exact ⟨h1, h2, h3, h4, h5, h6⟩

theorem updRightmost_selMem (hm : Int) (om : Rectangle) (S : List Rectangle) (s : Sel)
    (i : Nat) (r : Rectangle) (hom : r + om = r) (hs : SelMem S s) (hr : r ∈ S) :
    SelMem S (updRightmost hm om i r s) := by
  obtain ⟨h1, h2, h3, h4, h5, h6⟩ := hs
  unfold updRightmost
  split
  · exact ⟨h1, h2, h3, (by rw [hom]; exact hr : r + om ∈ S), h5, h6⟩
  · exact ⟨h1, h2, h3, h4, h5, h6⟩

theorem updTopmost_selMem (vm : Int) (om : Rectangle) (S : List Rectangle) (s : Sel)
    (i : Nat) (r : Rectangle) (hom : r + om = r) (hs : SelMem S s) (hr : r ∈ S) :
    SelMem S (updTopmost vm om i r s) := by
  obtain ⟨h1, h2, h3, h4, h5, h6⟩ := hs
  unfold updTopmost
  split
  · exact ⟨h1, h2, h3, h4, (by rw [hom]; exact hr : r + om ∈ S), h6⟩
  · exact ⟨h1, h2, h3, h4, h5, h6⟩

theorem updBottommost_selMem (vm : Int) (om : Rectangle) (S : List Rectangle) (s : Sel)
    (i : Nat) (r : Rectangle) (hom : r + om = r) (hs : SelMem S s) (hr : r ∈ S) :
    SelMem S (updBottommost vm om i r s) := by
  obtain ⟨h1, h2, h3, h4, h5, h6⟩ := hs
  unfold updBottommost
  split
  · exact ⟨h1, h2, h3, h4, h5, (by rw [hom]; exact hr : r + om ∈ S)⟩
  · exact ⟨h1, h2, h3, h4, h5, h6⟩

theorem scanStep_selMem (hm vm : Int) (om : Rectangle) (S : List Rectangle) (s : Sel)
    (i : Nat) (r : Rectangle) (hom : r + om = r) (hs : SelMem S s) (hr : r ∈ S) :
    SelMem S (scanStep hm vm om s i r) :=
  updBottommost_selMem vm om S _ i r hom
    (updTopmost_selMem vm om S _ i r hom
      (updRightmost_selMem hm om S _ i r hom
        (updLeftmost_selMem hm om S _ i r hom
          (updHighest_selMem vm om S _ i r hom
            (updLargest_selMem hm om S s i r hom hs hr) hr) hr) hr) hr) hr

theorem scanGo_selMem (hm vm : Int) (om : Rectangle) (S : List Rectangle)
    (hom : ∀ r ∈ S, r + om = r) :
    ∀ (l : List Rectangle) (s : Sel) (i : Nat),
      (∀ r ∈ l, r ∈ S) → SelMem S s → SelMem S (scanGo hm vm om s i l) := by
  intro l
  induction l with
  | nil => intro s i _ hs; exact hs
  | cons r rs ih =>
    intro s i hl hs
    have hr : r ∈ S := hl r (List.mem_cons_self r rs)
    exact ih _ (i + 1) (fun q hq => hl q (List.mem_cons_of_mem r hq))
      (scanStep_selMem hm vm om S s i r (hom r hr) hs hr)

theorem selectCandidates_selMem (hm vm : Int) (om : Rectangle) (a : Rectangle)
    (rest : List Rectangle) (hom : ∀ r ∈ a :: rest, r + om = r) :
    SelMem (a :: rest) (selectCandidates hm vm om (a :: rest)) := by
  have ha : (a :: rest).headD NULL_RECT ∈ a :: rest := by simp
  exact scanGo_selMem hm vm om (a :: rest) hom (a :: rest) _ 0 (fun q hq => hq)
    ⟨ha, ha, ha, ha, ha, ha⟩

theorem fixedFallback_cases (pk : Pack) (lg ch : Nat × Rectangle) :
    fixedFallback pk lg ch = lg ∨ fixedFallback pk lg ch = ch := by
  cases pk with
  | Fixed s =>
    simp only [fixedFallback]
    split
    · exact Or.inl rfl
    · exact Or.inr rfl
  | Percent v => exact Or.inr rfl
  | Fill => exact Or.inr rfl

theorem resolveSize_nonneg (fs : Point) (pk : Pack) (R : Rectangle)
    (hfs : 0 ≤ fs.x ∧ 0 ≤ fs.y) (hpk : TamePack pk)
    (hR : 0 ≤ R.width ∧ 0 ≤ R.height) :
    0 ≤ (resolveSize fs pk R).x ∧ 0 ≤ (resolveSize fs pk R).y := by
  cases pk with
  | Fixed s =>
    obtain ⟨hx, hy⟩ : 0 ≤ s.x ∧ 0 ≤ s.y := hpk
    simp only [resolveSize]
    split
    · exact ⟨hx, hy⟩
    · simp only [Point.min, regionDims]
      constructor <;> simp <;> omega
  | Percent v =>
    obtain ⟨hx, hdx, hy, hdy⟩ :
        0 ≤ v.x.num ∧ 0 < v.x.den ∧ 0 ≤ v.y.num ∧ 0 < v.y.den := hpk
    simp only [resolveSize, pointMulVec, Frac.apply]
    exact ⟨Int.tdiv_nonneg (mul_nonneg hfs.1 hx) (le_of_lt hdx),
      Int.tdiv_nonneg (mul_nonneg hfs.2 hy) (le_of_lt hdy)⟩
  | Fill =>
    simp only [resolveSize, regionDims]
    exact hR

theorem resolveSize_le (fs : Point) (pk : Pack) (R : Rectangle)
    (hnp : ∀ v, pk ≠ Pack.Percent v) :
    (resolveSize fs pk R).x ≤ R.width ∧ (resolveSize fs pk R).y ≤ R.height := by
  cases pk with
  | Fixed s =>
    simp only [resolveSize]
    split
    · next hle =>
      simp only [Point.le, regionDims, Bool.and_eq_true, decide_eq_true_eq] at hle
      exact hle
    · simp only [Point.min, regionDims]
      constructor <;> simp
  | Percent v => exact absurd rfl (hnp v)
  | Fill => exact ⟨le_refl _, le_refl _⟩

theorem add_zero_rect (r : Rectangle) : r + (⟨⟨0, 0⟩, ⟨0, 0⟩⟩ : Rectangle) = r := by
  rcases r with ⟨⟨x1, y1⟩, ⟨x2, y2⟩⟩
  simp

theorem getD_mem_or (l : List Rectangle) (i : Nat) :
    l.getD i NULL_RECT ∈ l ∨ l.getD i NULL_RECT = NULL_RECT := by
  rcases Nat.lt_or_ge i l.length with h | h
  · left
    rw [List.getD_eq_getElem l NULL_RECT h]
    exact List.getElem_mem h
  · right
    exact List.getD_eq_default l NULL_RECT h

theorem inside_shrink (parent o d : Rectangle) (ho : Inside parent o)
    (h1 : 0 ≤ d.min.x) (h2 : 0 ≤ d.min.y) (h3 : d.max.x ≤ 0) (h4 : d.max.y ≤ 0) :
    Inside parent (o + d) := by
  simp only [Inside, rect_add_def, point_add_def] at *
  omega

theorem properRect_of_pos (q : Rectangle) (h1 : 0 < q.width) (h2 : 0 < q.height) :
    ProperRect q := by
  simp only [ProperRect, Rectangle.width, Rectangle.height] at *
  omega

theorem inside_place (parent R : Rectangle) (size : Point) (mx my : Int)
    (hR : Inside parent R)
    (h1 : R.min.x ≤ mx) (h2 : mx + size.x ≤ R.max.x)
    (h3 : R.min.y ≤ my) (h4 : my + size.y ≤ R.max.y) :
    Inside parent ((⟨⟨mx, my⟩, ⟨mx, my⟩ + size⟩ : Rectangle) - NULL_RECT) := by
  simp only [Inside, NULL_RECT, rect_sub_def, point_sub_def, point_add_def] at *
  omega

/-- The availability update of one tame step keeps the invariant: old
availabilities survive the removal untouched, and each kept fragment both
passed the positivity filter and stays inside the parent. -/
theorem frag_invariant (parent : Rectangle) (av : List Rectangle) (idx : Nat)
    (orig f1 f2 : Rectangle)
    (hinv : ∀ q ∈ av, Inside parent q ∧ ProperRect q)
    (horig : orig ∈ av ∨ orig = NULL_RECT)
    (h1 : orig ∈ av → Inside parent f1)
    (h2 : orig ∈ av → Inside parent f2)
    (hn1 : orig = NULL_RECT → f1.width ≤ 0 ∨ f1.height ≤ 0)
    (hn2 : orig = NULL_RECT → f2.width ≤ 0 ∨ f2.height ≤ 0) :
    ∀ q ∈ av.eraseIdx idx ++
      ([f1] ++ [f2]).filter (fun q => 0 < q.width && 0 < q.height),
      Inside parent q ∧ ProperRect q := by
  intro q hq
  rcases List.mem_append.1 hq with hql | hqr
  · exact hinv q (List.eraseIdx_subset _ _ hql)
  · rcases List.mem_filter.1 hqr with ⟨hmem, hpos⟩
    simp only [Bool.and_eq_true, decide_eq_true_eq] at hpos
    have hqp : ProperRect q := properRect_of_pos q hpos.1 hpos.2
    have hqf : q = f1 ∨ q = f2 := by simpa using hmem
    rcases horig with ho | ho
    · rcases hqf with rfl | rfl
      · exact ⟨h1 ho, hqp⟩
      · exact ⟨h2 ho, hqp⟩
    · exfalso
      rcases hqf with rfl | rfl
      · rcases hn1 ho with hw | hw <;> omega
      · rcases hn2 ho with hw | hw <;> omega

/-- One loop iteration on a directive docked Left or Right and Top or
Bottom with zero margins and nonnegative size request keeps every
availability inside the parent and with ordered corners, and the emitted
rectangle of a Fixed or Fill directive stays inside the parent. -/
theorem packStep_tame (fs : Point) (parent : Rectangle) (a : Rectangle) (rest : List Rectangle)
    (p : Position)
    (hfs : 0 ≤ fs.x ∧ 0 ≤ fs.y)
    (hinv : ∀ q ∈ a :: rest, Inside parent q ∧ ProperRect q)
    (ht : Tame p) :
    (∀ q ∈ (packStep fs (a :: rest) p).2, Inside parent q ∧ ProperRect q) ∧
      ((∀ v, p.pack ≠ Pack.Percent v) → Inside parent (packStep fs (a :: rest) p).1) := by
  obtain ⟨pk, m, al, vl⟩ := p
  obtain ⟨hpk, hm, hal, hvl⟩ := ht
  have hm2 : m = NULL_RECT := hm
  subst hm2
  have hpk2 : TamePack pk := hpk
  cases al with
  | Center => exact absurd hal (by simp [TameAlign])
  | Left h =>
    have h0 : h = 0 := hal
    subst h0
    cases vl with
    | Center => exact absurd hvl (by simp [TameVAlign])
    | Top v =>
      have v0 : v = 0 := hvl
      subst v0
      simp only [packStep, outerH, outerV, alignChoice, neg_zero, mul_zero, add_zero]
      set sel := selectCandidates 0 0 (⟨⟨0, 0⟩, ⟨0, 0⟩⟩ : Rectangle) (a :: rest) with hsel
      set RI := fixedFallback pk sel.largest sel.leftmost with hRI
      set size := resolveSize fs pk RI.2 with hsizedef
      have hselm : SelMem (a :: rest) sel := by
        rw [hsel]
        exact selectCandidates_selMem 0 0 _ a rest (fun r _ => add_zero_rect r)
      have hRImem : RI.2 ∈ a :: rest := by
        rw [hRI]
        rcases fixedFallback_cases pk sel.largest sel.leftmost with he | he <;> rw [he]
        · exact hselm.1
        · exact hselm.2.2.1
      have hRIdims : 0 ≤ RI.2.width ∧ 0 ≤ RI.2.height := by
        have hpr := (hinv _ hRImem).2
        simp only [ProperRect, Rectangle.width, Rectangle.height] at hpr ⊢
        omega
      have hsz : 0 ≤ size.x ∧ 0 ≤ size.y := by
        rw [hsizedef]
        exact resolveSize_nonneg fs pk RI.2 hfs hpk2 hRIdims
      constructor
      · refine frag_invariant parent (a :: rest) RI.1 _ _ _ hinv
          (getD_mem_or (a :: rest) RI.1) ?_ ?_ ?_ ?_
        · intro hmm
          exact inside_shrink parent _ _ (hinv _ hmm).1 hsz.1 (le_refl 0) (le_refl 0) (le_refl 0)
        · intro hmm
          exact inside_shrink parent _ _ (hinv _ hmm).1 (le_refl 0) hsz.2 (le_refl 0) (le_refl 0)
        · intro hq
          rw [hq]
          right
          simp [NULL_RECT, Rectangle.height]
        · intro hq
          rw [hq]
          left
          simp [NULL_RECT, Rectangle.width]
      · intro hnp
        have hle := resolveSize_le fs pk RI.2 hnp
        rw [← hsizedef] at hle
        refine inside_place parent RI.2 size RI.2.min.x RI.2.min.y (hinv _ hRImem).1
          (le_refl _) ?_ (le_refl _) ?_
        · have hw := hle.1
          simp only [Rectangle.width] at hw
          omega
        · have hh := hle.2
          simp only [Rectangle.height] at hh
          omega
    | Bottom v =>
      have v0 : v = 0 := hvl
      subst v0
      simp only [packStep, outerH, outerV, alignChoice, neg_zero, mul_zero, add_zero]
      set sel := selectCandidates 0 0 (⟨⟨0, 0⟩, ⟨0, 0⟩⟩ : Rectangle) (a :: rest) with hsel
      set RI := fixedFallback pk sel.largest sel.leftmost with hRI
      set size := resolveSize fs pk RI.2 with hsizedef
      have hselm : SelMem (a :: rest) sel := by
        rw [hsel]
        exact selectCandidates_selMem 0 0 _ a rest (fun r _ => add_zero_rect r)
      have hRImem : RI.2 ∈ a :: rest := by
        rw [hRI]
        rcases fixedFallback_cases pk sel.largest sel.leftmost with he | he <;> rw [he]
        · exact hselm.1
        · exact hselm.2.2.1
      have hRIdims : 0 ≤ RI.2.width ∧ 0 ≤ RI.2.height := by
        have hpr := (hinv _ hRImem).2
        simp only [ProperRect, Rectangle.width, Rectangle.height] at hpr ⊢
        omega
      have hsz : 0 ≤ size.x ∧ 0 ≤ size.y := by
        rw [hsizedef]
        exact resolveSize_nonneg fs pk RI.2 hfs hpk2 hRIdims
      constructor
      · refine frag_invariant parent (a :: rest) RI.1 _ _ _ hinv
          (getD_mem_or (a :: rest) RI.1) ?_ ?_ ?_ ?_
        · intro hmm
          exact inside_shrink parent _ _ (hinv _ hmm).1 hsz.1 (le_refl 0) (le_refl 0) (le_refl 0)
        · intro hmm
          refine inside_shrink parent _ _ (hinv _ hmm).1 (le_refl 0) (le_refl 0) (le_refl 0) ?_
          show -size.y ≤ 0
          omega
        · intro hq
          rw [hq]
          right
          simp [NULL_RECT, Rectangle.height]
        · intro hq
          rw [hq]
          left
          simp [NULL_RECT, Rectangle.width]
      · intro hnp
        have hle := resolveSize_le fs pk RI.2 hnp
        rw [← hsizedef] at hle
        have hh := hle.2
        simp only [Rectangle.height] at hh
        refine inside_place parent RI.2 size RI.2.min.x (RI.2.max.y - size.y) (hinv _ hRImem).1
          (le_refl _) ?_ ?_ ?_
        · have hw := hle.1
          simp only [Rectangle.width] at hw
          omega
        · omega
        · omega
  | Right h =>
    have h0 : h = 0 := hal
    subst h0
    cases vl with
    | Center => exact absurd hvl (by simp [TameVAlign])
    | Top v =>
      have v0 : v = 0 := hvl
      subst v0
      simp only [packStep, outerH, outerV, alignChoice, neg_zero, mul_zero, add_zero]
      set sel := selectCandidates 0 0 (⟨⟨0, 0⟩, ⟨0, 0⟩⟩ : Rectangle) (a :: rest) with hsel
      set RI := fixedFallback pk sel.largest sel.rightmost with hRI
      set size := resolveSize fs pk RI.2 with hsizedef
      have hselm : SelMem (a :: rest) sel := by
        rw [hsel]
        exact selectCandidates_selMem 0 0 _ a rest (fun r _ => add_zero_rect r)
      have hRImem : RI.2 ∈ a :: rest := by
        rw [hRI]
        rcases fixedFallback_cases pk sel.largest sel.rightmost with he | he <;> rw [he]
        · exact hselm.1
        · exact hselm.2.2.2.1
      have hRIdims : 0 ≤ RI.2.width ∧ 0 ≤ RI.2.height := by
        have hpr := (hinv _ hRImem).2
        simp only [ProperRect, Rectangle.width, Rectangle.height] at hpr ⊢
        omega
      have hsz : 0 ≤ size.x ∧ 0 ≤ size.y := by
        rw [hsizedef]
        exact resolveSize_nonneg fs pk RI.2 hfs hpk2 hRIdims
      constructor
      · refine frag_invariant parent (a :: rest) RI.1 _ _ _ hinv
          (getD_mem_or (a :: rest) RI.1) ?_ ?_ ?_ ?_
        · intro hmm
          refine inside_shrink parent _ _ (hinv _ hmm).1 (le_refl 0) (le_refl 0) ?_ (le_refl 0)
          show -size.x ≤ 0
          omega
        · intro hmm
          exact inside_shrink parent _ _ (hinv _ hmm).1 (le_refl 0) hsz.2 (le_refl 0) (le_refl 0)
        · intro hq
          rw [hq]
          right
          simp [NULL_RECT, Rectangle.height]
        · intro hq
          rw [hq]
          left
          simp [NULL_RECT, Rectangle.width]
      · intro hnp
        have hle := resolveSize_le fs pk RI.2 hnp
        rw [← hsizedef] at hle
        have hw := hle.1
        simp only [Rectangle.width] at hw
        refine inside_place parent RI.2 size (RI.2.max.x - size.x) RI.2.min.y (hinv _ hRImem).1
          ?_ ?_ (le_refl _) ?_
        · omega
        · omega
        · have hh := hle.2
          simp only [Rectangle.height] at hh
          omega
    | Bottom v =>
      have v0 : v = 0 := hvl
      subst v0
      simp only [packStep, outerH, outerV, alignChoice, neg_zero, mul_zero, add_zero]
      set sel := selectCandidates 0 0 (⟨⟨0, 0⟩, ⟨0, 0⟩⟩ : Rectangle) (a :: rest) with hsel
      set RI := fixedFallback pk sel.largest sel.rightmost with hRI
      set size := resolveSize fs pk RI.2 with hsizedef
      have hselm : SelMem (a :: rest) sel := by
        rw [hsel]
        exact selectCandidates_selMem 0 0 _ a rest (fun r _ => add_zero_rect r)
      have hRImem : RI.2 ∈ a :: rest := by
        rw [hRI]
        rcases fixedFallback_cases pk sel.largest sel.rightmost with he | he <;> rw [he]
        · exact hselm.1
        · exact hselm.2.2.2.1
      have hRIdims : 0 ≤ RI.2.width ∧ 0 ≤ RI.2.height := by
        have hpr := (hinv _ hRImem).2
        simp only [ProperRect, Rectangle.width, Rectangle.height] at hpr ⊢
        omega
      have hsz : 0 ≤ size.x ∧ 0 ≤ size.y := by
        rw [hsizedef]
        exact resolveSize_nonneg fs pk RI.2 hfs hpk2 hRIdims
      constructor
      · refine frag_invariant parent (a :: rest) RI.1 _ _ _ hinv
          (getD_mem_or (a :: rest) RI.1) ?_ ?_ ?_ ?_
        · intro hmm
          refine inside_shrink parent _ _ (hinv _ hmm).1 (le_refl 0) (le_refl 0) ?_ (le_refl 0)
          show -size.x ≤ 0
          omega
        · intro hmm
          refine inside_shrink parent _ _ (hinv _ hmm).1 (le_refl 0) (le_refl 0) (le_refl 0) ?_
          show -size.y ≤ 0
          omega
        · intro hq
          rw [hq]
          right
          simp [NULL_RECT, Rectangle.height]
        · intro hq
          rw [hq]
          left
          simp [NULL_RECT, Rectangle.width]
      · intro hnp
        have hle := resolveSize_le fs pk RI.2 hnp
        rw [← hsizedef] at hle
        have hw := hle.1
        simp only [Rectangle.width] at hw
        have hh := hle.2
        simp only [Rectangle.height] at hh
        refine inside_place parent RI.2 size (RI.2.max.x - size.x) (RI.2.max.y - size.y)
          (hinv _ hRImem).1 ?_ ?_ ?_ ?_
        · omega
        · omega
        · omega
        · omega

/-- Containment through the whole loop: with tame directives every emitted
rectangle of a non-Percent directive lies inside the parent. -/
theorem computeSizes_inside (fs : Point) (parent : Rectangle)
    (hfs : 0 ≤ fs.x ∧ 0 ≤ fs.y) :
    ∀ (ps : List Position) (avails : List Rectangle),
      (∀ q ∈ avails, Inside parent q ∧ ProperRect q) →
      (∀ p ∈ ps, Tame p) →
      ∀ (i : Nat) (p : Position) (r : Rectangle),
        ps[i]? = some p → (computeSizes fs ps avails)[i]? = some r →
        (∀ v, p.pack ≠ Pack.Percent v) → Inside parent r := by
  intro ps
  induction ps with
  | nil => intro avails _ _ i p r hp; simp at hp
  | cons q ps ih =>
    intro avails hinv hps i p r hp hr hnp
    cases avails with
    | nil => simp [computeSizes] at hr
    | cons a rest =>
      have hstep := packStep_tame fs parent a rest q hfs hinv (hps q (by simp))
      cases i with
      | zero =>
        simp only [List.getElem?_cons_zero, Option.some.injEq] at hp
        subst hp
        simp only [computeSizes, List.getElem?_cons_zero, Option.some.injEq] at hr
        subst hr
        exact hstep.2 hnp
      | succ n =>
        simp only [List.getElem?_cons_succ] at hp
        simp only [computeSizes, List.getElem?_cons_succ] at hr
        exact ih (packStep fs (a :: rest) q).2 hstep.1
          (fun x hx => hps x (List.mem_cons_of_mem q hx)) n p r hp hr hnp

/-- C4 (amended): a sequence of Left/Right/Top/Bottom-aligned, fixed
nonnegative-size, zero-margin directives in a proper parent never escapes
the parent: every returned rectangle is contained in the parent.  The
disjointness aspects of the original claim fail: the two residual cuts of
one placement overlap each other, overlapping availabilities let later
directives reuse already-consumed area, and directives after the consumed
width reaches the parent width can still obtain non-degenerate space. -/
theorem c4_amended (parent : Rectangle) (ps : List Position)
    (hpp : ProperRect parent)
    (hps : ∀ p ∈ ps, Tame p ∧ ∃ s, p.pack = Pack.Fixed s) :
    ∀ r ∈ compute_sizes parent ps, Inside parent r := by
  intro r hr
  obtain ⟨i, hilt, hiv⟩ := List.getElem_of_mem hr
  have hi : (compute_sizes parent ps)[i]? = some r := by
    rw [List.getElem?_eq_some_iff]
    exact ⟨hilt, hiv⟩
  have hlen : i < ps.length :=
    lt_of_lt_of_le hilt (computeSizes_length_le ⟨parent.width, parent.height⟩ ps [parent])
  have hp : ps[i]? = some ps[i] := by
    rw [List.getElem?_eq_some_iff]
    exact ⟨hlen, rfl⟩
  obtain ⟨ht, s, hs⟩ := hps ps[i] (List.getElem_mem hlen)
  refine computeSizes_inside ⟨parent.width, parent.height⟩ parent ?_ ps [parent] ?_
    (fun x hx => (hps x hx).1) i ps[i] r hp hi ?_
  · simp only [ProperRect, Rectangle.width, Rectangle.height] at hpp ⊢
    omega
  · intro q hq
    have hq2 : q = parent := by simpa using hq
    subst hq2
    refine ⟨?_, hpp⟩
    simp [Inside]
  · intro v hv
    rw [hs] at hv
    cases hv

/-- C4 witness: the two fixed-size directives of the example scenario in
the (0,0)-(100,20) parent are both contained in the parent. -/
theorem c4_witness :
    Inside ⟨⟨0, 0⟩, ⟨100, 20⟩⟩ ⟨⟨0, 0⟩, ⟨20, 20⟩⟩ :=
  c4_amended ⟨⟨0, 0⟩, ⟨100, 20⟩⟩
    [mkPos (Pack.Fixed ⟨20, 20⟩) (Align.Left 0) (VAlign.Top 0),
     mkPos (Pack.Fixed ⟨20, 20⟩) (Align.Right 0) (VAlign.Top 0)]
    (by decide)
    (by
      intro p hp
      rcases List.mem_cons.1 hp with rfl | hp2
      · exact ⟨by decide, ⟨20, 20⟩, rfl⟩
      · rcases List.mem_cons.1 hp2 with rfl | h3
        · exact ⟨by decide, ⟨20, 20⟩, rfl⟩
        · cases h3)
    ⟨⟨0, 0⟩, ⟨20, 20⟩⟩ (by decide)

/-- The PackedView state (mod.rs lines 10 to 16): parent rectangle, the
children (opaque boxed views, modelled by a type parameter) and one
Position per child.  The generated id is irrelevant to the claims and
omitted. -/
structure PackedView (α : Type) where
  rect : Rectangle
  children : List α
  positions : List Position

/-- PackedView::new (mod.rs lines 19 to 28): empty children and positions. -/
def PackedView.new (α : Type) (rect : Rectangle) : PackedView α :=
  ⟨rect, [], []⟩

/-- PackedView::push (mod.rs lines 30 to 37): append one child and its
position, then resize with the unchanged parent rectangle (which leaves
the state's rectangle and lists as written here). -/
def PackedView.push {α : Type} (s : PackedView α) (view : α) (position : Position) :
    PackedView α :=
  ⟨s.rect, s.children ++ [view], s.positions ++ [position]⟩

/-- PackedView::resize (mod.rs lines 186 to 194): store the new parent
rectangle and resize each child with its computed rectangle; the children
and position lists keep their lengths. -/
def PackedView.resize {α : Type} (s : PackedView α) (rect : Rectangle) : PackedView α :=
  ⟨rect, s.children, s.positions⟩

/-- The rectangles computed by PackedView::compute_sizes for a state. -/
def PackedView.compute_sizes {α : Type} (s : PackedView α) : List Rectangle :=
  Plato.compute_sizes s.rect s.positions

/-- States reachable through new, push and resize. -/
inductive Reachable {α : Type} : PackedView α → Prop
  | new : ∀ rect, Reachable (PackedView.new α rect)
  | push : ∀ s view position, Reachable s → Reachable (s.push view position)
  | resize : ∀ s rect, Reachable s → Reachable (s.resize rect)

/-- C10: every reachable PackedView keeps as many children as positions,
compute_sizes returns at most that many rectangles, and therefore the
children indexing done by resize over the computed rectangles stays in
bounds. -/
theorem c10_resize_in_bounds {α : Type} (s : PackedView α) (h : Reachable s) :
    s.children.length = s.positions.length ∧
      s.compute_sizes.length ≤ s.positions.length ∧
      ∀ i < s.compute_sizes.length, i < s.children.length := by
  have hlen : s.children.length = s.positions.length := by
    induction h with
    | new rect => rfl
    | push t view position _ iht => simp [PackedView.push, iht]
    | resize t rect _ iht => simpa [PackedView.resize] using iht
  have hle : s.compute_sizes.length ≤ s.positions.length :=
    computeSizes_length_le ⟨s.rect.width, s.rect.height⟩ s.positions [s.rect]
  exact ⟨hlen, hle, fun i hi => by omega⟩

/-- C10 witness: a state built by new and one push has one child, one
position, one computed rectangle, and index zero is in bounds. -/
theorem c10_witness :
    ((PackedView.new Unit ⟨⟨0, 0⟩, ⟨10, 10⟩⟩).push ()
        (mkPos Pack.Fill (Align.Left 0) (VAlign.Top 0))).children.length =
      ((PackedView.new Unit ⟨⟨0, 0⟩, ⟨10, 10⟩⟩).push ()
        (mkPos Pack.Fill (Align.Left 0) (VAlign.Top 0))).positions.length ∧
    ((PackedView.new Unit ⟨⟨0, 0⟩, ⟨10, 10⟩⟩).push ()
        (mkPos Pack.Fill (Align.Left 0) (VAlign.Top 0))).compute_sizes.length ≤
      ((PackedView.new Unit ⟨⟨0, 0⟩, ⟨10, 10⟩⟩).push ()
        (mkPos Pack.Fill (Align.Left 0) (VAlign.Top 0))).positions.length ∧
    ∀ i < ((PackedView.new Unit ⟨⟨0, 0⟩, ⟨10, 10⟩⟩).push ()
        (mkPos Pack.Fill (Align.Left 0) (VAlign.Top 0))).compute_sizes.length,
      i < ((PackedView.new Unit ⟨⟨0, 0⟩, ⟨10, 10⟩⟩).push ()
        (mkPos Pack.Fill (Align.Left 0) (VAlign.Top 0))).children.length :=
  c10_resize_in_bounds
    ((PackedView.new Unit ⟨⟨0, 0⟩, ⟨10, 10⟩⟩).push ()
      (mkPos Pack.Fill (Align.Left 0) (VAlign.Top 0)))
    (Reachable.push _ _ _ (Reachable.new ⟨⟨0, 0⟩, ⟨10, 10⟩⟩))

/-- An alignment docked to a side with nonnegative outer margin. -/
def SideAlign : Align → Prop
  | Align.Left h => 0 ≤ h
  | Align.Right h => 0 ≤ h
  | Align.Center => False

instance (a : Align) : Decidable (SideAlign a) :=
  match a with
  | Align.Left h => inferInstanceAs (Decidable (0 ≤ h))
  | Align.Right h => inferInstanceAs (Decidable (0 ≤ h))
  | Align.Center => inferInstanceAs (Decidable False)

/-- A vertical alignment docked to a side with nonnegative outer margin. -/
def SideVAlign : VAlign → Prop
  | VAlign.Top v => 0 ≤ v
  | VAlign.Bottom v => 0 ≤ v
  | VAlign.Center => False

instance (a : VAlign) : Decidable (SideVAlign a) :=
  match a with
  | VAlign.Top v => inferInstanceAs (Decidable (0 ≤ v))
  | VAlign.Bottom v => inferInstanceAs (Decidable (0 ≤ v))
  | VAlign.Center => inferInstanceAs (Decidable False)

/-- A directive docked to a side on both axes with nonnegative outer
margins and nonnegative size request or factors; the inner margin is
unconstrained. -/
def Sided (p : Position) : Prop :=
  TamePack p.pack ∧ SideAlign p.align ∧ SideVAlign p.valign

instance (p : Position) : Decidable (Sided p) := by
  unfold Sided
  infer_instance

/-- Containment in the parent rectangle offset by a directive inner
margin: exactly the corner offsets that subtracting the margin applies,
so with a zero margin this is containment in the parent itself. -/
def InsideOffset (parent m r : Rectangle) : Prop :=
  parent.min.x - m.min.x ≤ r.min.x ∧ parent.min.y - m.min.y ≤ r.min.y ∧
    r.max.x ≤ parent.max.x - m.max.x ∧ r.max.y ≤ parent.max.y - m.max.y

instance (parent m r : Rectangle) : Decidable (InsideOffset parent m r) := by
  unfold InsideOffset
  infer_instance

theorem insideOffset_null (parent r : Rectangle) (h : InsideOffset parent NULL_RECT r) :
    Inside parent r := by
  simp only [InsideOffset, NULL_RECT, Inside] at *
  omega

/-- A property shared by all six scored candidates. -/
def SelP (P : Nat × Rectangle → Prop) (s : Sel) : Prop :=
  P s.largest ∧ P s.highest ∧ P s.leftmost ∧ P s.rightmost ∧ P s.topmost ∧ P s.bottommost

theorem updLargest_pres (P : Nat × Rectangle → Prop) (hm : Int) (om : Rectangle)
    (i : Nat) (r : Rectangle) (s : Sel) (hnew : P (i, r + om)) (hs : SelP P s) :
    SelP P (updLargest hm om i r s) := by
  obtain ⟨h1, h2, h3, h4, h5, h6⟩ := hs
  unfold updLargest
  split
  · exact ⟨hnew, h2, h3, h4, h5, h6⟩
  · exact ⟨h1, h2, h3, h4, h5, h6⟩

theorem updHighest_pres (P : Nat × Rectangle → Prop) (vm : Int) (om : Rectangle)
    (i : Nat) (r : Rectangle) (s : Sel) (hnew : P (i, r + om)) (hs : SelP P s) :
    SelP P (updHighest vm om i r s) := by
  obtain ⟨h1, h2, h3, h4, h5, h6⟩ := hs
  unfold updHighest
  split
  · exact ⟨h1, hnew, h3, h4, h5, h6⟩
  · exact ⟨h1, h2, h3, h4, h5, h6⟩

theorem updLeftmost_pres (P : Nat × Rectangle → Prop) (hm : Int) (om : Rectangle)
    (i : Nat) (r : Rectangle) (s : Sel) (hnew : P (i, r + om)) (hs : SelP P s) :
    SelP P (updLeftmost hm om i r s) := by
  obtain ⟨h1, h2, h3, h4, h5, h6⟩ := hs
  unfold updLeftmost
  split
  · exact ⟨h1, h2, hnew, h4, h5, h6⟩
  · exact ⟨h1, h2, h3, h4, h5, h6⟩

theorem updRightmost_pres (P : Nat × Rectangle → Prop) (hm : Int) (om : Rectangle)
    (i : Nat) (r : Rectangle) (s : Sel) (hnew : P (i, r + om)) (hs : SelP P s) :
    SelP P (updRightmost hm om i r s) := by
  obtain ⟨h1, h2, h3, h4, h5, h6⟩ := hs
  unfold updRightmost
  split
  · exact ⟨h1, h2, h3, hnew, h5, h6⟩
  · exact ⟨h1, h2, h3, h4, h5, h6⟩

theorem updTopmost_pres (P : Nat × Rectangle → Prop) (vm : Int) (om : Rectangle)
    (i : Nat) (r : Rectangle) (s : Sel) (hnew : P (i, r + om)) (hs : SelP P s) :
    SelP P (updTopmost vm om i r s) := by
  obtain ⟨h1, h2, h3, h4, h5, h6⟩ := hs
  unfold updTopmost
  split
  · exact ⟨h1, h2, h3, h4, hnew, h6⟩
  · exact ⟨h1, h2, h3, h4, h5, h6⟩

theorem updBottommost_pres (P : Nat × Rectangle → Prop) (vm : Int) (om : Rectangle)
    (i : Nat) (r : Rectangle) (s : Sel) (hnew : P (i, r + om)) (hs : SelP P s) :
    SelP P (updBottommost vm om i r s) := by
  obtain ⟨h1, h2, h3, h4, h5, h6⟩ := hs
  unfold updBottommost
  split
  · exact ⟨h1, h2, h3, h4, h5, hnew⟩
  · exact ⟨h1, h2, h3, h4, h5, h6⟩

theorem scanStep_pres (P : Nat × Rectangle → Prop) (hm vm : Int) (om : Rectangle)
    (s : Sel) (i : Nat) (r : Rectangle) (hnew : P (i, r + om)) (hs : SelP P s) :
    SelP P (scanStep hm vm om s i r) :=
  updBottommost_pres P vm om i r _ hnew
    (updTopmost_pres P vm om i r _ hnew
      (updRightmost_pres P hm om i r _ hnew
        (updLeftmost_pres P hm om i r _ hnew
          (updHighest_pres P vm om i r _ hnew
            (updLargest_pres P hm om i r s hnew hs)))))

theorem scanGo_pres (P : Nat × Rectangle → Prop) (hm vm : Int) (om : Rectangle) :
    ∀ (l : List Rectangle) (s : Sel) (i : Nat),
      (∀ r ∈ l, ∀ j, P (j, r + om)) → SelP P s → SelP P (scanGo hm vm om s i l) := by
  intro l
  induction l with
  | nil => intro s i _ hs; exact hs
  | cons r rs ih =>
    intro s i hl hs
    exact ih _ (i + 1) (fun q hq => hl q (List.mem_cons_of_mem r hq))
      (scanStep_pres P hm vm om s i r (hl r (List.mem_cons_self r rs) i) hs)

theorem selectCandidates_pres (P : Nat × Rectangle → Prop) (hm vm : Int) (om : Rectangle)
    (a : Rectangle) (rest : List Rectangle)
    (hinit : P (0, a)) (hall : ∀ r ∈ a :: rest, ∀ j, P (j, r + om)) :
    SelP P (selectCandidates hm vm om (a :: rest)) :=
  scanGo_pres P hm vm om (a :: rest) _ 0 hall
    ⟨hinit, hinit, hinit, hinit, hinit, hinit⟩

theorem resolveSize_shift_nonneg (fs : Point) (pk : Pack) (R : Rectangle) (h v : Int)
    (hfs : 0 ≤ fs.x ∧ 0 ≤ fs.y) (hpk : TamePack pk) (hh : 0 ≤ h) (hv : 0 ≤ v)
    (hR : 0 ≤ R.width + 2 * h ∧ 0 ≤ R.height + 2 * v) :
    0 ≤ (resolveSize fs pk R).x + 2 * h ∧ 0 ≤ (resolveSize fs pk R).y + 2 * v := by
  cases pk with
  | Fixed s =>
    obtain ⟨hx, hy⟩ : 0 ≤ s.x ∧ 0 ≤ s.y := hpk
    simp only [resolveSize]
    split
    · constructor <;> omega
    · simp only [Point.min, regionDims]
      constructor <;> omega
  | Percent pc =>
    obtain ⟨hx, hdx, hy, hdy⟩ :
        0 ≤ pc.x.num ∧ 0 < pc.x.den ∧ 0 ≤ pc.y.num ∧ 0 < pc.y.den := hpk
    simp only [resolveSize, pointMulVec, Frac.apply]
    have h1 : 0 ≤ Int.tdiv (fs.x * pc.x.num) pc.x.den :=
      Int.tdiv_nonneg (mul_nonneg hfs.1 hx) (le_of_lt hdx)
    have h2 : 0 ≤ Int.tdiv (fs.y * pc.y.num) pc.y.den :=
      Int.tdiv_nonneg (mul_nonneg hfs.2 hy) (le_of_lt hdy)
    constructor <;> omega
  | Fill =>
    simp only [resolveSize, regionDims]
    constructor <;> omega

theorem inside_place_off (parent R : Rectangle) (size : Point) (m : Rectangle)
    (mx my : Int) (hR : Inside parent R)
    (h1 : R.min.x ≤ mx) (h2 : mx + size.x ≤ R.max.x)
    (h3 : R.min.y ≤ my) (h4 : my + size.y ≤ R.max.y) :
    InsideOffset parent m ((⟨⟨mx, my⟩, ⟨mx, my⟩ + size⟩ : Rectangle) - m) := by
  simp only [InsideOffset, Inside, rect_sub_def, point_sub_def, point_add_def] at *
  omega


/-- One loop iteration on a side-aligned directive (Left/Right and
Top/Bottom docking, nonnegative outer margins, nonnegative size request,
arbitrary inner margin) keeps every availability inside the parent with
ordered corners, and the rectangle emitted for a Fixed or Fill directive
lies inside the parent offset by that directive's own inner margin. -/
theorem packStep_sided (fs : Point) (parent : Rectangle) (a : Rectangle)
    (rest : List Rectangle) (p : Position)
    (hfs : 0 ≤ fs.x ∧ 0 ≤ fs.y)
    (hinv : ∀ q ∈ a :: rest, Inside parent q ∧ ProperRect q)
    (hs : Sided p) :
    (∀ q ∈ (packStep fs (a :: rest) p).2, Inside parent q ∧ ProperRect q) ∧
      ((∀ v, p.pack ≠ Pack.Percent v) →
        InsideOffset parent p.margin (packStep fs (a :: rest) p).1) := by
  obtain ⟨pk, m, al, vl⟩ := p
  obtain ⟨hpk, hal, hvl⟩ := hs
  have hpk2 : TamePack pk := hpk
  cases al with
  | Center => exact absurd hal (by simp [SideAlign])
  | Left h =>
    have ha2 : (0 : Int) ≤ h := hal
    cases vl with
    | Center => exact absurd hvl (by simp [SideVAlign])

    | Top v =>
      have hv2 : (0 : Int) ≤ v := hvl
      simp only [packStep, outerH, outerV, alignChoice]
      set sel := selectCandidates h v (⟨⟨h, v⟩, ⟨-h, -v⟩⟩ : Rectangle) (a :: rest) with hsel
      set RI := fixedFallback pk sel.largest sel.leftmost with hRI
      set size := resolveSize fs pk RI.2 with hsizedef
      have hselw : SelP (fun c => c.2 ∈ a :: rest ∨
          ∃ b ∈ a :: rest, c.2 = b + (⟨⟨h, v⟩, ⟨-h, -v⟩⟩ : Rectangle)) sel := by
        rw [hsel]
        exact selectCandidates_pres _ h v _ a rest (Or.inl (by simp))
          (fun r hr j => Or.inr ⟨r, hr, rfl⟩)
      have hRIw : RI.2 ∈ a :: rest ∨
          ∃ b ∈ a :: rest, RI.2 = b + (⟨⟨h, v⟩, ⟨-h, -v⟩⟩ : Rectangle) := by
        rw [hRI]
        rcases fixedFallback_cases pk sel.largest sel.leftmost with he | he <;> rw [he]
        · exact hselw.1
        · exact hselw.2.2.1
      have hRIin : Inside parent RI.2 := by
        rcases hRIw with hmem | ⟨b, hb, heq⟩
        · exact (hinv _ hmem).1
        · rw [heq]
          refine inside_shrink parent b _ (hinv b hb).1 ha2 hv2 ?_ ?_
          · show -h ≤ 0
            omega
          · show -v ≤ 0
            omega
      have hRIdim : 0 ≤ RI.2.width + 2 * h ∧ 0 ≤ RI.2.height + 2 * v := by
        rcases hRIw with hmem | ⟨b, hb, heq⟩
        · have hp2 := (hinv _ hmem).2
          simp only [ProperRect, Rectangle.width, Rectangle.height] at hp2 ⊢
          omega
        · have hp2 := (hinv _ hb).2
          rw [heq]
          simp only [ProperRect, Rectangle.width, Rectangle.height, rect_add_def,
            point_add_def] at hp2 ⊢
          omega
      have hshift : 0 ≤ size.x + 2 * h ∧ 0 ≤ size.y + 2 * v := by
        rw [hsizedef]
        exact resolveSize_shift_nonneg fs pk RI.2 h v hfs hpk2 ha2 hv2 hRIdim
      constructor
      · refine frag_invariant parent (a :: rest) RI.1 _ _ _ hinv
          (getD_mem_or (a :: rest) RI.1) ?_ ?_ ?_ ?_
        · intro hmm
          refine inside_shrink parent _ _ (hinv _ hmm).1 ?_ (le_refl 0) (le_refl 0) (le_refl 0)
          exact hshift.1
        · intro hmm
          refine inside_shrink parent _ _ (hinv _ hmm).1 (le_refl 0) ?_ (le_refl 0) (le_refl 0)
          exact hshift.2
        · intro hq
          rw [hq]
          right
          simp [NULL_RECT, Rectangle.height]
        · intro hq
          rw [hq]
          left
          simp [NULL_RECT, Rectangle.width]
      · intro hnp
        have hle := resolveSize_le fs pk RI.2 hnp
        rw [← hsizedef] at hle
        have hw := hle.1
        simp only [Rectangle.width] at hw
        have hh2 := hle.2
        simp only [Rectangle.height] at hh2
        refine inside_place_off parent RI.2 size m RI.2.min.x RI.2.min.y hRIin ?_ ?_ ?_ ?_
        · omega
        · omega
        · omega
        · omega

    | Bottom v =>
      have hv2 : (0 : Int) ≤ v := hvl
      simp only [packStep, outerH, outerV, alignChoice]
      set sel := selectCandidates h v (⟨⟨h, v⟩, ⟨-h, -v⟩⟩ : Rectangle) (a :: rest) with hsel
      set RI := fixedFallback pk sel.largest sel.leftmost with hRI
      set size := resolveSize fs pk RI.2 with hsizedef
      have hselw : SelP (fun c => c.2 ∈ a :: rest ∨
          ∃ b ∈ a :: rest, c.2 = b + (⟨⟨h, v⟩, ⟨-h, -v⟩⟩ : Rectangle)) sel := by
        rw [hsel]
        exact selectCandidates_pres _ h v _ a rest (Or.inl (by simp))
          (fun r hr j => Or.inr ⟨r, hr, rfl⟩)
      have hRIw : RI.2 ∈ a :: rest ∨
          ∃ b ∈ a :: rest, RI.2 = b + (⟨⟨h, v⟩, ⟨-h, -v⟩⟩ : Rectangle) := by
        rw [hRI]
        rcases fixedFallback_cases pk sel.largest sel.leftmost with he | he <;> rw [he]
        · exact hselw.1
        · exact hselw.2.2.1
      have hRIin : Inside parent RI.2 := by
        rcases hRIw with hmem | ⟨b, hb, heq⟩
        · exact (hinv _ hmem).1
        · rw [heq]
          refine inside_shrink parent b _ (hinv b hb).1 ha2 hv2 ?_ ?_
          · show -h ≤ 0
            omega
          · show -v ≤ 0
            omega
      have hRIdim : 0 ≤ RI.2.width + 2 * h ∧ 0 ≤ RI.2.height + 2 * v := by
        rcases hRIw with hmem | ⟨b, hb, heq⟩
        · have hp2 := (hinv _ hmem).2
          simp only [ProperRect, Rectangle.width, Rectangle.height] at hp2 ⊢
          omega
        · have hp2 := (hinv _ hb).2
          rw [heq]
          simp only [ProperRect, Rectangle.width, Rectangle.height, rect_add_def,
            point_add_def] at hp2 ⊢
          omega
      have hshift : 0 ≤ size.x + 2 * h ∧ 0 ≤ size.y + 2 * v := by
        rw [hsizedef]
        exact resolveSize_shift_nonneg fs pk RI.2 h v hfs hpk2 ha2 hv2 hRIdim
      constructor
      · refine frag_invariant parent (a :: rest) RI.1 _ _ _ hinv
          (getD_mem_or (a :: rest) RI.1) ?_ ?_ ?_ ?_
        · intro hmm
          refine inside_shrink parent _ _ (hinv _ hmm).1 ?_ (le_refl 0) (le_refl 0) (le_refl 0)
          exact hshift.1
        · intro hmm
          refine inside_shrink parent _ _ (hinv _ hmm).1 (le_refl 0) (le_refl 0) (le_refl 0) ?_
          show -(size.y + 2 * v) ≤ 0
          omega
        · intro hq
          rw [hq]
          right
          simp [NULL_RECT, Rectangle.height]
        · intro hq
          rw [hq]
          left
          simp [NULL_RECT, Rectangle.width]
      · intro hnp
        have hle := resolveSize_le fs pk RI.2 hnp
        rw [← hsizedef] at hle
        have hw := hle.1
        simp only [Rectangle.width] at hw
        have hh2 := hle.2
        simp only [Rectangle.height] at hh2
        refine inside_place_off parent RI.2 size m RI.2.min.x (RI.2.max.y - size.y) hRIin ?_ ?_ ?_ ?_
        · omega
        · omega
        · omega
        · omega
  | Right h =>
    have ha2 : (0 : Int) ≤ h := hal
    cases vl with
    | Center => exact absurd hvl (by simp [SideVAlign])

    | Top v =>
      have hv2 : (0 : Int) ≤ v := hvl
      simp only [packStep, outerH, outerV, alignChoice]
      set sel := selectCandidates h v (⟨⟨h, v⟩, ⟨-h, -v⟩⟩ : Rectangle) (a :: rest) with hsel
      set RI := fixedFallback pk sel.largest sel.rightmost with hRI
      set size := resolveSize fs pk RI.2 with hsizedef
      have hselw : SelP (fun c => c.2 ∈ a :: rest ∨
          ∃ b ∈ a :: rest, c.2 = b + (⟨⟨h, v⟩, ⟨-h, -v⟩⟩ : Rectangle)) sel := by
        rw [hsel]
        exact selectCandidates_pres _ h v _ a rest (Or.inl (by simp))
          (fun r hr j => Or.inr ⟨r, hr, rfl⟩)
      have hRIw : RI.2 ∈ a :: rest ∨
          ∃ b ∈ a :: rest, RI.2 = b + (⟨⟨h, v⟩, ⟨-h, -v⟩⟩ : Rectangle) := by
        rw [hRI]
        rcases fixedFallback_cases pk sel.largest sel.rightmost with he | he <;> rw [he]
        · exact hselw.1
        · exact hselw.2.2.2.1
      have hRIin : Inside parent RI.2 := by
        rcases hRIw with hmem | ⟨b, hb, heq⟩
        · exact (hinv _ hmem).1
        · rw [heq]
          refine inside_shrink parent b _ (hinv b hb).1 ha2 hv2 ?_ ?_
          · show -h ≤ 0
            omega
          · show -v ≤ 0
            omega
      have hRIdim : 0 ≤ RI.2.width + 2 * h ∧ 0 ≤ RI.2.height + 2 * v := by
        rcases hRIw with hmem | ⟨b, hb, heq⟩
        · have hp2 := (hinv _ hmem).2
          simp only [ProperRect, Rectangle.width, Rectangle.height] at hp2 ⊢
          omega
        · have hp2 := (hinv _ hb).2
          rw [heq]
          simp only [ProperRect, Rectangle.width, Rectangle.height, rect_add_def,
            point_add_def] at hp2 ⊢
          omega
      have hshift : 0 ≤ size.x + 2 * h ∧ 0 ≤ size.y + 2 * v := by
        rw [hsizedef]
        exact resolveSize_shift_nonneg fs pk RI.2 h v hfs hpk2 ha2 hv2 hRIdim
      constructor
      · refine frag_invariant parent (a :: rest) RI.1 _ _ _ hinv
          (getD_mem_or (a :: rest) RI.1) ?_ ?_ ?_ ?_
        · intro hmm
          refine inside_shrink parent _ _ (hinv _ hmm).1 (le_refl 0) (le_refl 0) ?_ (le_refl 0)
          show -(size.x + 2 * h) ≤ 0
          omega
        · intro hmm
          refine inside_shrink parent _ _ (hinv _ hmm).1 (le_refl 0) ?_ (le_refl 0) (le_refl 0)
          exact hshift.2
        · intro hq
          rw [hq]
          right
          simp [NULL_RECT, Rectangle.height]
        · intro hq
          rw [hq]
          left
          simp [NULL_RECT, Rectangle.width]
      · intro hnp
        have hle := resolveSize_le fs pk RI.2 hnp
        rw [← hsizedef] at hle
        have hw := hle.1
        simp only [Rectangle.width] at hw
        have hh2 := hle.2
        simp only [Rectangle.height] at hh2
        refine inside_place_off parent RI.2 size m (RI.2.max.x - size.x) RI.2.min.y hRIin ?_ ?_ ?_ ?_
        · omega
        · omega
        · omega
        · omega

    | Bottom v =>
      have hv2 : (0 : Int) ≤ v := hvl
      simp only [packStep, outerH, outerV, alignChoice]
      set sel := selectCandidates h v (⟨⟨h, v⟩, ⟨-h, -v⟩⟩ : Rectangle) (a :: rest) with hsel
      set RI := fixedFallback pk sel.largest sel.rightmost with hRI
      set size := resolveSize fs pk RI.2 with hsizedef
      have hselw : SelP (fun c => c.2 ∈ a :: rest ∨
          ∃ b ∈ a :: rest, c.2 = b + (⟨⟨h, v⟩, ⟨-h, -v⟩⟩ : Rectangle)) sel := by
        rw [hsel]
        exact selectCandidates_pres _ h v _ a rest (Or.inl (by simp))
          (fun r hr j => Or.inr ⟨r, hr, rfl⟩)
      have hRIw : RI.2 ∈ a :: rest ∨
          ∃ b ∈ a :: rest, RI.2 = b + (⟨⟨h, v⟩, ⟨-h, -v⟩⟩ : Rectangle) := by
        rw [hRI]
        rcases fixedFallback_cases pk sel.largest sel.rightmost with he | he <;> rw [he]
        · exact hselw.1
        · exact hselw.2.2.2.1
      have hRIin : Inside parent RI.2 := by
        rcases hRIw with hmem | ⟨b, hb, heq⟩
        · exact (hinv _ hmem).1
        · rw [heq]
          refine inside_shrink parent b _ (hinv b hb).1 ha2 hv2 ?_ ?_
          · show -h ≤ 0
            omega
          · show -v ≤ 0
            omega
      have hRIdim : 0 ≤ RI.2.width + 2 * h ∧ 0 ≤ RI.2.height + 2 * v := by
        rcases hRIw with hmem | ⟨b, hb, heq⟩
        · have hp2 := (hinv _ hmem).2
          simp only [ProperRect, Rectangle.width, Rectangle.height] at hp2 ⊢
          omega
        · have hp2 := (hinv _ hb).2
          rw [heq]
          simp only [ProperRect, Rectangle.width, Rectangle.height, rect_add_def,
            point_add_def] at hp2 ⊢
          omega
      have hshift : 0 ≤ size.x + 2 * h ∧ 0 ≤ size.y + 2 * v := by
        rw [hsizedef]
        exact resolveSize_shift_nonneg fs pk RI.2 h v hfs hpk2 ha2 hv2 hRIdim
      constructor
      · refine frag_invariant parent (a :: rest) RI.1 _ _ _ hinv
          (getD_mem_or (a :: rest) RI.1) ?_ ?_ ?_ ?_
        · intro hmm
          refine inside_shrink parent _ _ (hinv _ hmm).1 (le_refl 0) (le_refl 0) ?_ (le_refl 0)
          show -(size.x + 2 * h) ≤ 0
          omega
        · intro hmm
          refine inside_shrink parent _ _ (hinv _ hmm).1 (le_refl 0) (le_refl 0) (le_refl 0) ?_
          show -(size.y + 2 * v) ≤ 0
          omega
        · intro hq
          rw [hq]
          right
          simp [NULL_RECT, Rectangle.height]
        · intro hq
          rw [hq]
          left
          simp [NULL_RECT, Rectangle.width]
      · intro hnp
        have hle := resolveSize_le fs pk RI.2 hnp
        rw [← hsizedef] at hle
        have hw := hle.1
        simp only [Rectangle.width] at hw
        have hh2 := hle.2
        simp only [Rectangle.height] at hh2
        refine inside_place_off parent RI.2 size m (RI.2.max.x - size.x) (RI.2.max.y - size.y) hRIin ?_ ?_ ?_ ?_
        · omega
        · omega
        · omega
        · omega

/-- Containment through the whole loop for side-aligned directives: every
rectangle a non-Percent directive obtains lies inside the parent offset by
that directive's own inner margin. -/
theorem computeSizes_insideOff (fs : Point) (parent : Rectangle)
    (hfs : 0 ≤ fs.x ∧ 0 ≤ fs.y) :
    ∀ (ps : List Position) (avails : List Rectangle),
      (∀ q ∈ avails, Inside parent q ∧ ProperRect q) →
      (∀ p ∈ ps, Sided p) →
      ∀ (i : Nat) (p : Position) (r : Rectangle),
        ps[i]? = some p → (computeSizes fs ps avails)[i]? = some r →
        (∀ v, p.pack ≠ Pack.Percent v) → InsideOffset parent p.margin r := by
  intro ps
  induction ps with
  | nil => intro avails _ _ i p r hp; simp at hp
  | cons q ps ih =>
    intro avails hinv hps i p r hp hr hnp
    cases avails with
    | nil => simp [computeSizes] at hr
    | cons a rest =>
      have hstep := packStep_sided fs parent a rest q hfs hinv (hps q (by simp))
      cases i with
      | zero =>
        simp only [List.getElem?_cons_zero, Option.some.injEq] at hp
        subst hp
        simp only [computeSizes, List.getElem?_cons_zero, Option.some.injEq] at hr
        subst hr
        exact hstep.2 hnp
      | succ n =>
        simp only [List.getElem?_cons_succ] at hp
        simp only [computeSizes, List.getElem?_cons_succ] at hr
        exact ih (packStep fs (a :: rest) q).2 hstep.1
          (fun x hx => hps x (List.mem_cons_of_mem q hx)) n p r hp hr hnp


/-- C5 counterexample: three ways the original every-list containment
claim fails, each ending in a non-degenerate output rectangle escaping
the parent although the escaping directive's own margins are all zero.
First, a Percent(2,1) Left/Top directive emits (0,0)-(200,100) in a 100
by 100 parent: Percent sizes come from the original parent and are never
clamped.  Second, a Fixed(20,20) Center/Center directive whose inner
margin grows the placed rectangle (min corner shifted by -70) makes the
Center cut store the fragment (0,0)-(110,100), after which a zero-margin
Fill Right/Top emits (0,0)-(110,100), escaping a 100 by 100 parent.
Third, a Fixed(5,5) Left directive with outer margin -10 pushes the
left-cut fragment to (-15,0)-(50,50), after which a zero-margin Fill
Right/Top emits (-15,0)-(50,50), escaping a 50 by 50 parent. -/
theorem c5_counterexample :
    (compute_sizes ⟨⟨0, 0⟩, ⟨100, 100⟩⟩
        [mkPos (Pack.Percent ⟨⟨2, 1⟩, ⟨1, 1⟩⟩) (Align.Left 0) (VAlign.Top 0)] =
        [⟨⟨0, 0⟩, ⟨200, 100⟩⟩] ∧
      ¬ Inside ⟨⟨0, 0⟩, ⟨100, 100⟩⟩ ⟨⟨0, 0⟩, ⟨200, 100⟩⟩ ∧
      0 < (⟨⟨0, 0⟩, ⟨200, 100⟩⟩ : Rectangle).width ∧
      0 < (⟨⟨0, 0⟩, ⟨200, 100⟩⟩ : Rectangle).height) ∧
    ((compute_sizes ⟨⟨0, 0⟩, ⟨100, 100⟩⟩
        [⟨Pack.Fixed ⟨20, 20⟩, ⟨⟨-70, 0⟩, ⟨0, 0⟩⟩, Align.Center, VAlign.Center⟩,
         mkPos Pack.Fill (Align.Right 0) (VAlign.Top 0)])[1]? =
        some ⟨⟨0, 0⟩, ⟨110, 100⟩⟩ ∧
      ¬ Inside ⟨⟨0, 0⟩, ⟨100, 100⟩⟩ ⟨⟨0, 0⟩, ⟨110, 100⟩⟩ ∧
      0 < (⟨⟨0, 0⟩, ⟨110, 100⟩⟩ : Rectangle).width ∧
      0 < (⟨⟨0, 0⟩, ⟨110, 100⟩⟩ : Rectangle).height) ∧
    ((compute_sizes ⟨⟨0, 0⟩, ⟨50, 50⟩⟩
        [mkPos (Pack.Fixed ⟨5, 5⟩) (Align.Left (-10)) (VAlign.Top 0),
         mkPos Pack.Fill (Align.Right 0) (VAlign.Top 0)])[1]? =
        some ⟨⟨-15, 0⟩, ⟨50, 50⟩⟩ ∧
      ¬ Inside ⟨⟨0, 0⟩, ⟨50, 50⟩⟩ ⟨⟨-15, 0⟩, ⟨50, 50⟩⟩ ∧
      0 < (⟨⟨-15, 0⟩, ⟨50, 50⟩⟩ : Rectangle).width ∧
      0 < (⟨⟨-15, 0⟩, ⟨50, 50⟩⟩ : Rectangle).height) := by
  decide

/-- C5 (amended): in a directive list whose entries are side-aligned on
both axes (Left/Right and Top/Bottom) with nonnegative outer margins and
nonnegative size requests or factors, every rectangle emitted for a Fixed
or Fill directive is contained within the parent rectangle offset by that
directive's own inner margin, the inner margin being otherwise arbitrary;
with zero inner margin this is containment in the parent itself.  In
particular Fixed(200,200) in a 100 by 100 zero-margin parent yields
exactly (0,0)-(100,100); the clamp warning is a logging side effect
outside this model.  Each excluded case is refuted by the counterexample:
Percent directives escape with zero margins, a Center-aligned directive's
inner margin leaks into the availability set through the Center cuts, and
a negative outer margin pushes a fragment beyond the parent, in both
cases letting a later zero-margin directive escape. -/
theorem c5_amended (parent : Rectangle) (ps : List Position)
    (hpp : ProperRect parent) (hps : ∀ p ∈ ps, Sided p) :
    (∀ (i : Nat) (p : Position) (r : Rectangle),
      ps[i]? = some p → (compute_sizes parent ps)[i]? = some r →
      (∀ v, p.pack ≠ Pack.Percent v) → InsideOffset parent p.margin r) ∧
      compute_sizes ⟨⟨0, 0⟩, ⟨100, 100⟩⟩
          [mkPos (Pack.Fixed ⟨200, 200⟩) (Align.Left 0) (VAlign.Top 0)] =
        [⟨⟨0, 0⟩, ⟨100, 100⟩⟩] := by
  constructor
  · intro i p r hp hr hnp
    refine computeSizes_insideOff ⟨parent.width, parent.height⟩ parent ?_ ps [parent]
      ?_ hps i p r hp hr hnp
    · simp only [ProperRect, Rectangle.width, Rectangle.height] at hpp ⊢
      omega
    · intro q hq
      have hq2 : q = parent := by simpa using hq
      subst hq2
      refine ⟨?_, hpp⟩
      simp [Inside]
  · decide

/-- C5 witness: a Fixed(20,20) Left/Top directive in a 50 by 50 parent
with inner margin min-corner (2,2) emits (-2,-2)-(20,20), contained in
the parent offset by exactly that inner margin. -/
theorem c5_witness :
    InsideOffset ⟨⟨0, 0⟩, ⟨50, 50⟩⟩ ⟨⟨2, 2⟩, ⟨0, 0⟩⟩ ⟨⟨-2, -2⟩, ⟨20, 20⟩⟩ :=
  (c5_amended ⟨⟨0, 0⟩, ⟨50, 50⟩⟩
      [⟨Pack.Fixed ⟨20, 20⟩, ⟨⟨2, 2⟩, ⟨0, 0⟩⟩, Align.Left 0, VAlign.Top 0⟩]
      (by decide) (by decide)).1 0
    ⟨Pack.Fixed ⟨20, 20⟩, ⟨⟨2, 2⟩, ⟨0, 0⟩⟩, Align.Left 0, VAlign.Top 0⟩
    ⟨⟨-2, -2⟩, ⟨20, 20⟩⟩
    (by decide) (by decide) (fun v hv => Pack.noConfusion hv)

end Plato
